import Mathlib

/-! Verification of the cumulus gap-detection repository.

This file gives a shallow embedding of the gap-maintenance engine and its
surrounding lambdas (gapUpdate, knownGap, getTimeGaps, gapConfig,
gapMigrationStreamMessageCompiler, shared utils) and proves theorems about
the specification's claims.  Timestamps are modelled as integer microseconds,
the resolution of both Postgres `timestamp` values and Python `datetime`
objects; a Postgres `tsrange(a, b)` is the half-open interval `[a, b)`. -/

namespace GapDetection

/-- Half-open Postgres `tsrange` `[lo, hi)` over integer-microsecond
timestamps.  A range with `hi ≤ lo` is empty. -/
structure Tsrange where
  lo : Int
  hi : Int
deriving DecidableEq

/-- Membership of a time point in a range. -/
def Tsrange.containsPt (r : Tsrange) (t : Int) : Prop :=
  r.lo ≤ t ∧ t < r.hi

instance (r : Tsrange) (t : Int) : Decidable (r.containsPt t) := by
  unfold Tsrange.containsPt; infer_instance

/-- Postgres `&&`: the two ranges share at least one point (an empty range
overlaps nothing). -/
def Tsrange.overlaps (a b : Tsrange) : Bool :=
  max a.lo b.lo < min a.hi b.hi

/-- Postgres `-|-`: two nonempty ranges that touch end-to-start in either
direction (empty ranges are adjacent to nothing). -/
def Tsrange.adjacent (a b : Tsrange) : Bool :=
  a.lo < a.hi && b.lo < b.hi && (a.hi == b.lo || b.hi == a.lo)

/-- Some point of some range in the list covers `t`. -/
def covList (rs : List Tsrange) (t : Int) : Prop :=
  ∃ r ∈ rs, r.containsPt t

instance (rs : List Tsrange) (t : Int) : Decidable (covList rs t) :=
  List.decidableBEx _ rs

/-- Microseconds per second. -/
def usPerSecond : Int := 1000000

/-- `date_trunc('second', e) + interval '1 second'` from the `add_gaps` SQL:
truncate the timestamp to its whole second and add one second.  (Equivalently:
the smallest whole-second timestamp strictly greater than `e`.) -/
def roundUpSec (e : Int) : Int :=
  e / usPerSecond * usPerSecond + usPerSecond

/-- A row of the `gaps` table (the opaque `gap_id` is omitted: no modelled
operation depends on it). -/
structure GapRow where
  collection_id : String
  start_ts : Int
  end_ts : Int
deriving DecidableEq

/-- The `tsrange(start_ts, end_ts)` of a gap row. -/
def GapRow.range (g : GapRow) : Tsrange :=
  ⟨g.start_ts, g.end_ts⟩

/-- Some gap row of the given collection covers the time point `t`. -/
def covState (tbl : List GapRow) (cid : String) (t : Int) : Prop :=
  ∃ g ∈ tbl, g.collection_id = cid ∧ g.range.containsPt t

instance (tbl : List GapRow) (cid : String) (t : Int) :
    Decidable (covState tbl cid t) :=
  List.decidableBEx _ tbl

/-- The ranges of a collection's gap rows, in table order. -/
def collGaps (tbl : List GapRow) (cid : String) : List Tsrange :=
  (tbl.filter (fun g => g.collection_id == cid)).map GapRow.range

/-- Comparison by lower bound, used to sort ranges before sweeping. -/
def loLE (a b : Tsrange) : Prop :=
  a.lo ≤ b.lo

instance : DecidableRel loLE := fun a b => by
  unfold loLE; infer_instance

instance : IsTotal Tsrange loLE :=
  ⟨fun a b => Int.le_total a.lo b.lo⟩

instance : IsTrans Tsrange loLE :=
  ⟨fun _ _ _ h₁ h₂ => le_trans h₁ h₂⟩

/-- Sweep a list of ranges sorted by lower bound, merging every range that
overlaps or touches the one being accumulated. -/
def mergeInto (cur : Tsrange) : List Tsrange → List Tsrange
  | [] => [cur]
  | r :: rest =>
    if r.lo ≤ cur.hi then mergeInto ⟨cur.lo, max cur.hi r.hi⟩ rest
    else cur :: mergeInto r rest

/-- Postgres `unnest(range_agg(...))`: the canonical decomposition of a union
of ranges into merged ranges, computed by sorting and sweeping. -/
def rangeAgg (rs : List Tsrange) : List Tsrange :=
  match List.insertionSort loLE rs with
  | [] => []
  | r :: rest => mergeInto r rest

/-- A staged `input_records` row of the gapUpdate lambda (one granule event,
already copied into the per-transaction staging relation). -/
structure GranuleRecord where
  collection_id : String
  start_ts : Int
  end_ts : Int
deriving DecidableEq

namespace GapUpdate

/-- `tsrange(start_ts, date_trunc('second', end_ts) + interval '1 second')`:
the gap range staged for a deleted granule (`input_ranges` CTE of
`add_gaps`). -/
def inputRange (r : GranuleRecord) : Tsrange :=
  ⟨r.start_ts, roundUpSec r.end_ts⟩

/-- The `removed_gaps` deletion condition of `add_gaps`: the gap row belongs
to the collection of some staged record and overlaps or is adjacent to that
record's staged range. -/
def touchedBy (inputs : List GranuleRecord) (g : GapRow) : Bool :=
  inputs.any fun ir =>
    ir.collection_id == g.collection_id &&
      (g.range.overlaps (inputRange ir) || g.range.adjacent (inputRange ir))

/-- The distinct collection ids of the staged records (the `GROUP BY
collection_id` of the final insert). -/
def inputCids (inputs : List GranuleRecord) : List String :=
  (inputs.map (·.collection_id)).dedup

/-- The staged ranges belonging to one collection. -/
def inputRangesFor (inputs : List GranuleRecord) (c : String) : List Tsrange :=
  inputs.filterMap fun ir =>
    if ir.collection_id == c then some (inputRange ir) else none

/-- The ranges of the gap rows of collection `c` deleted by `add_gaps`. -/
def removedRangesFor (tbl : List GapRow) (inputs : List GranuleRecord)
    (c : String) : List Tsrange :=
  ((tbl.filter (touchedBy inputs)).filter
    (fun g => g.collection_id == c)).map GapRow.range

/-- The `add_gaps` SQL of `gapUpdate.py` (merge-on-delete): delete every gap
overlapping or adjacent to a staged range of its collection, then insert, per
collection, the merged union (`unnest(range_agg(...))`) of the staged ranges
and the deleted gaps. -/
def add_gaps (tbl : List GapRow) (inputs : List GranuleRecord) : List GapRow :=
  tbl.filter (fun g => ! touchedBy inputs g) ++
    (inputCids inputs).flatMap fun c =>
      (rangeAgg (inputRangesFor inputs c ++ removedRangesFor tbl inputs c)).map
        fun r => ⟨c, r.lo, r.hi⟩

/-- Modelled from the spec: the file `update_gaps.sql` executed by
`update_gaps` in `gapUpdate.py` is not part of the sources (only its caller
is), so the split-on-add step for one granule against one gap follows
§4.4.3 of the specification literally: an overlapped gap is deleted when
fully covered, split in two when the granule is strictly interior, and
shrunk when the granule covers one edge. -/
def subOne (g a : Tsrange) : List Tsrange :=
  if g.overlaps a = false then [g]
  else if a.lo ≤ g.lo ∧ g.hi ≤ a.hi then []
  else if g.lo < a.lo ∧ a.hi < g.hi then [⟨g.lo, a.lo⟩, ⟨a.hi, g.hi⟩]
  else if a.lo ≤ g.lo then [⟨a.hi, g.hi⟩]
  else [⟨g.lo, a.lo⟩]

/-- Modelled from the spec: apply one ingest granule to every gap row of its
collection (other collections' rows pass through untouched). -/
def applyGranule (tbl : List GapRow) (r : GranuleRecord) : List GapRow :=
  tbl.flatMap fun g =>
    if g.collection_id == r.collection_id then
      (subOne g.range ⟨r.start_ts, r.end_ts⟩).map fun q => ⟨g.collection_id, q.lo, q.hi⟩
    else [g]

/-- Modelled from the spec: the ingest algorithm of `update_gaps.sql`
(§4.4.3), applied granule by granule in staged order. -/
def update_gaps (tbl : List GapRow) (rs : List GranuleRecord) : List GapRow :=
  rs.foldl applyGranule tbl

/-- The raw ingest ranges staged for one collection. -/
def grRangesFor (rs : List GranuleRecord) (c : String) : List Tsrange :=
  rs.filterMap fun r =>
    if r.collection_id == c then some ⟨r.start_ts, r.end_ts⟩ else none

/-- The pieces an ingest granule list leaves of one gap range. -/
def pieces (g : Tsrange) (A : List Tsrange) : List Tsrange :=
  A.foldl (fun ps a => ps.flatMap (fun p => subOne p a)) [g]

/-- `p` is a maximal nonempty subinterval of `g` avoiding every range of
`A`: the characterization of the pieces ingest leaves of a gap.  It depends
on `A` only through the set of points `A` covers. -/
def isPiece (g : Tsrange) (A : List Tsrange) (p : Tsrange) : Prop :=
  p.lo < p.hi ∧ g.lo ≤ p.lo ∧ p.hi ≤ g.hi ∧
    (∀ t, p.containsPt t → ¬ covList A t) ∧
    (p.lo = g.lo ∨ covList A (p.lo - 1)) ∧
    (p.hi = g.hi ∨ covList A p.hi)

end GapUpdate

/-- One SQS record of a gapUpdate event, with the twice-JSON-decoded body
fields inlined (`record.collectionId`, `record.beginningDateTime`,
`record.endingDateTime`). -/
structure SQSRecord where
  eventSourceARN : String
  messageId : String
  collectionId : String
  beginningDateTime : Int
  endingDateTime : Int
deriving DecidableEq

/-- Python `s.replace(".", "_")` for the one-character pattern used on
collection ids: replace every dot character by an underscore. -/
def sanitizeId (s : String) : String :=
  ⟨s.data.map fun c => if c == '.' then '_' else c⟩

namespace GapUpdate

/-- The grouping key of a record: `r["collectionId"].replace(".", "_")`. -/
def recCid (r : SQSRecord) : String :=
  sanitizeId r.collectionId

/-- One step of building `records_by_collection`: append the record to its
collection's group, or open a new group at the end. -/
def groupStep (acc : List (String × List SQSRecord)) (r : SQSRecord) :
    List (String × List SQSRecord) :=
  if acc.any (fun p => p.1 == recCid r) then
    acc.map fun p => if p.1 == recCid r then (p.1, p.2 ++ [r]) else p
  else acc ++ [(recCid r, [r])]

/-- `records_by_collection`: group the records by sanitized collection id,
preserving first-occurrence order of the keys and delivery order within each
group (Python dicts preserve insertion order). -/
def groupByCid (records : List SQSRecord) : List (String × List SQSRecord) :=
  records.foldl groupStep []

/-- The staged range predicate of `add_gaps` on one gap range: some staged
range overlaps or touches it. -/
def rangeTouched (irs : List Tsrange) (q : Tsrange) : Bool :=
  irs.any fun ir => q.overlaps ir || q.adjacent ir

/-- The effect of `add_gaps` on the gap ranges of the one collection the
staged records belong to. -/
def addGapsRanges (grs irs : List Tsrange) : List Tsrange :=
  grs.filter (fun q => ! rangeTouched irs q) ++
    rangeAgg (irs ++ grs.filter (rangeTouched irs))

/-- The effect of the ingest algorithm on the gap ranges of one
collection. -/
def updateGapsRanges (grs A : List Tsrange) : List Tsrange :=
  grs.flatMap fun q => pieces q A

/-- The staged records written to the tab-separated copy buffer for one
group (the buffer line carries the sanitized collection id). -/
def toGranules (c : String) (recs : List SQSRecord) : List GranuleRecord :=
  recs.map fun r => ⟨c, r.beginningDateTime, r.endingDateTime⟩

/-- One iteration of the handler's per-collection loop: validate the
collection (on failure the message ids are appended once by the validation
branch and once more by the surrounding exception handler), run the selected
algorithm in a transaction (`txnFails` is an oracle marking the collections
whose transaction raises; the rollback leaves the gaps table unchanged and
the ids are appended once), or commit the algorithm's result. -/
def processGroup (del : Bool) (collectionsTable : List String)
    (txnFails : String → Bool) (st : List String × List GapRow)
    (group : String × List SQSRecord) : List String × List GapRow :=
  let ids := group.2.map (·.messageId)
  if ¬ collectionsTable.contains group.1 then
    (st.1 ++ ids ++ ids, st.2)
  else if txnFails group.1 then
    (st.1 ++ ids, st.2)
  else
    (st.1,
      if del then add_gaps st.2 (toGranules group.1 group.2)
      else update_gaps st.2 (toGranules group.1 group.2))

/-- The `lambda_handler` of `gapUpdate.py`.  `collectionsTable` is the
content of the `collections` table consulted by `validate_collections`.
Returns the `batchItemFailures` message ids and the final gaps table.  Note
the single batch-level `delete` flag: it is set when any record of the batch
comes from the deletion queue, and selects the algorithm for every group. -/
def lambda_handler (deletionQueueArn : String) (collectionsTable : List String)
    (txnFails : String → Bool) (gapsTable : List GapRow)
    (records : List SQSRecord) : List String × List GapRow :=
  let del := records.any fun r => r.eventSourceARN == deletionQueueArn
  (groupByCid records).foldl (processGroup del collectionsTable txnFails)
    (([] : List String), gapsTable)

end GapUpdate

namespace KnownGap

/-- A row of the `gaps` table as seen by `knownGap.py`, which reads and
writes a `reason` column directly on the gap rows. -/
structure Row where
  gap_id : Nat
  collection_id : String
  start_ts : Int
  end_ts : Int
  reason : Option String
deriving DecidableEq

/-- Postgres `@>` on `tsrange`s: an empty inner range is contained in
everything; otherwise the outer bounds must enclose the inner bounds. -/
def rangeContainsRange (outer inner : Tsrange) : Bool :=
  if inner.hi ≤ inner.lo then true
  else outer.lo ≤ inner.lo && inner.hi ≤ outer.hi

/-- `get_gaps` of `knownGap.py`: the gap rows of the collection whose range
is contained in the query range. -/
def get_gaps (cid : String) (start finish : Int) (db : List Row) : List Row :=
  db.filter fun g =>
    g.collection_id == cid &&
      rangeContainsRange ⟨start, finish⟩ ⟨g.start_ts, g.end_ts⟩

/-- `validate_operation` of `knownGap.py`: `some msg` is a validation
failure. -/
def validate_operation (gaps : List Row) (operation : String) : Option String :=
  if gaps.isEmpty then some "No gaps found in range"
  else
    let null_gaps := (gaps.filter (fun g => g.reason == none)).map (·.gap_id)
    let non_null_gaps := (gaps.filter (fun g => g.reason != none)).map (·.gap_id)
    if operation == "delete" && !null_gaps.isEmpty then
      some ("Cannot delete NULL reasons from gaps: " ++ toString null_gaps)
    else if operation == "update" && !null_gaps.isEmpty then
      some ("Cannot update NULL reasons for gaps: " ++ toString null_gaps)
    else if operation == "create" && !non_null_gaps.isEmpty then
      some ("Cannot create reason for gaps that already have one: " ++
        toString non_null_gaps)
    else none

/-- `update_reason` of `knownGap.py`: validate, then rewrite the `reason`
column of every gap contained in the range (`UPDATE gaps SET reason = ...`).
Returns the updated `gaps` table and the result message, or the
`ValueError` message. -/
def update_reason (cid : String) (start finish : Int) (reason : Option String)
    (operation : String) (db : List Row) :
    Except String (List Row × String) :=
  let gaps := get_gaps cid start finish db
  match validate_operation gaps operation with
  | some error => .error ("Invalid request: " ++ error)
  | none =>
    let gap_ids := gaps.map (·.gap_id)
    if gap_ids.isEmpty then
      .ok (db, "No gaps found in range for collection " ++ cid)
    else if operation == "delete" then
      .ok (db.map fun g =>
            if gap_ids.contains g.gap_id then
              ⟨g.gap_id, g.collection_id, g.start_ts, g.end_ts, none⟩
            else g,
        "Deleted reason from " ++ toString gap_ids.length ++ " gaps in range")
    else
      .ok (db.map fun g =>
            if gap_ids.contains g.gap_id then
              ⟨g.gap_id, g.collection_id, g.start_ts, g.end_ts, reason⟩
            else g,
        (if operation == "update" then "Updated" else "Added") ++
          " reason to '" ++ (match reason with | some s => s | none => "None") ++
          "' for " ++ toString gap_ids.length ++ " gaps in range")

end KnownGap

/-- A row of the `reasons` table (used by `fetch_time_gaps` in
`shared/utils.py`). -/
structure ReasonRow where
  collection_id : String
  start_ts : Int
  end_ts : Int
  reason : String
deriving DecidableEq

namespace Utils

/-- Microseconds from the timestamp origin (2000-01-01T00:00:00) to
9999-01-01T00:00:00: 7999 Gregorian years containing 1940 leap days. -/
def year9999lo : Int := (7999 * 365 + 1940) * 86400 * usPerSecond

/-- Microseconds from the origin to the end of year 9999 (365 days, 9999 is
not a leap year). -/
def year9999hi : Int := year9999lo + 365 * 86400 * usPerSecond

/-- Python `timestamp.year == 9999`. -/
def isYear9999 (t : Int) : Bool :=
  year9999lo ≤ t && t < year9999hi

/-- The `LEFT JOIN reasons r ON ...` condition of the `fetch_time_gaps`
query: same collection as the query, range overlap with the gap, and the
optional query-window bounds on the reason. -/
def joinCond (cid : String) (startDate endDate : Option Int) (g : GapRow)
    (r : ReasonRow) : Bool :=
  r.collection_id == cid &&
    g.range.overlaps ⟨r.start_ts, r.end_ts⟩ &&
    (match startDate with | none => true | some d => d < r.end_ts) &&
    (match endDate with | none => true | some d => r.start_ts < d)

/-- SQL left join: each gap is paired with every reason matching the join
condition, or with `none` when no reason matches. -/
def leftJoin (gaps : List GapRow) (reasons : List ReasonRow) (cid : String)
    (startDate endDate : Option Int) : List (GapRow × Option ReasonRow) :=
  gaps.flatMap fun g =>
    let ms := reasons.filter (joinCond cid startDate endDate g)
    if ms.isEmpty then [(g, none)] else ms.map fun r => (g, some r)

/-- `GREATEST(g.start_ts, COALESCE(r.start_ts, g.start_ts))`. -/
def emitLo (row : GapRow × Option ReasonRow) : Int :=
  match row.2 with
  | none => row.1.start_ts
  | some r => max row.1.start_ts r.start_ts

/-- `LEAST(g.end_ts, COALESCE(r.end_ts, g.end_ts))`. -/
def emitHi (row : GapRow × Option ReasonRow) : Int :=
  match row.2 with
  | none => row.1.end_ts
  | some r => min row.1.end_ts r.end_ts

/-- The `WHERE` clause of the `fetch_time_gaps` query: gap of the queried
collection, gap overlapping the query window, gap duration at least the
tolerance, and the emitted intersection's duration at least the tolerance
(`EXTRACT(EPOCH FROM d) >= tolerance` over microsecond intervals is
`d ≥ tolerance·10⁶`). -/
def whereCond (cid : String) (startDate endDate : Option Int) (tolerance : Int)
    (row : GapRow × Option ReasonRow) : Bool :=
  row.1.collection_id == cid &&
    (match startDate with | none => true | some d => d < row.1.end_ts) &&
    (match endDate with | none => true | some d => row.1.start_ts < d) &&
    row.1.end_ts - row.1.start_ts ≥ tolerance * usPerSecond &&
    emitHi row - emitLo row ≥ tolerance * usPerSecond

/-- A result row: emitted start, emitted end and the (possibly NULL)
reason text. -/
def emit (row : GapRow × Option ReasonRow) : Int × Int × Option String :=
  (emitLo row, emitHi row, row.2.map (·.reason))

/-- `ORDER BY start_ts` comparison on result rows. -/
def startLE (a b : Int × Int × Option String) : Prop :=
  a.1 ≤ b.1

instance : DecidableRel startLE := fun a b => by
  unfold startLE; infer_instance

instance : IsTotal (Int × Int × Option String) startLE :=
  ⟨fun a b => Int.le_total a.1 b.1⟩

instance : IsTrans (Int × Int × Option String) startLE :=
  ⟨fun _ _ _ h₁ h₂ => le_trans h₁ h₂⟩

/-- A row returned by `fetch_time_gaps`: either a regular three-column
tuple `(start_ts, end_ts, reason)` of the query, or the two-component tuple
`(start_ts, now)` that `rows[-1] = (rows[-1][0], datetime.now())` writes
over the last row — that assignment drops the reason column. -/
inductive TimeGapRow where
  | triple (start_ts end_ts : Int) (reason : Option String)
  | pair (start_ts end_ts : Int)
deriving DecidableEq

/-- The final block of `fetch_time_gaps`: when the last returned row's end
timestamp falls in year 9999 (the open-ended sentinel), the row is replaced
by the two-component tuple `(start_ts, now)`, losing its reason column; all
other rows stay three-column tuples. -/
def postLast (rows : List (Int × Int × Option String)) (now : Int) :
    List TimeGapRow :=
  match rows.getLast? with
  | none => rows.map fun r => TimeGapRow.triple r.1 r.2.1 r.2.2
  | some last =>
    if isYear9999 last.2.1 then
      (rows.dropLast.map fun r => TimeGapRow.triple r.1 r.2.1 r.2.2) ++
        [TimeGapRow.pair last.1 now]
    else rows.map fun r => TimeGapRow.triple r.1 r.2.1 r.2.2

/-- `fetch_time_gaps` of `shared/utils.py`: left-join gaps with reasons,
filter by the `WHERE` clause and (when `knownCheck`) by `r.reason IS NULL`,
emit `SELECT DISTINCT` rows ordered by start, then overwrite the last row
with the reason-less pair `(start_ts, now)` when its end falls in year
9999.  Timestamps are integer microseconds from 2000-01-01T00:00:00. -/
def fetch_time_gaps (shortname versionid : String) (granulegap : Int)
    (gaps : List GapRow) (reasons : List ReasonRow) (knownCheck : Bool)
    (startDate endDate : Option Int) (now : Int) : List TimeGapRow :=
  let collection_id := shortname ++ "___" ++ sanitizeId versionid
  let joined := leftJoin gaps reasons collection_id startDate endDate
  let kept := joined.filter fun row =>
    whereCond collection_id startDate endDate granulegap row &&
      (!knownCheck || row.2.isNone)
  postLast (List.insertionSort startLE (kept.map emit).dedup) now

/-- A sound result row of the gap query: the intersection of a gap of the
collection with a reason matching the join condition (overlap with the gap
plus the query-window bounds), or the full gap when no reason matches, with
the emitted duration within tolerance.  Used to state C5. -/
def rowSound (gaps : List GapRow) (reasons : List ReasonRow) (cid : String)
    (tolerance : Int) (startDate endDate : Option Int)
    (row : Int × Int × Option String) : Prop :=
  ∃ g ∈ gaps, g.collection_id = cid ∧
    ((row.2.2 = none ∧ row.1 = g.start_ts ∧ row.2.1 = g.end_ts ∧
        ∀ r ∈ reasons, ¬ joinCond cid startDate endDate g r = true) ∨
      (∃ r ∈ reasons, joinCond cid startDate endDate g r = true ∧
        row.1 = max g.start_ts r.start_ts ∧ row.2.1 = min g.end_ts r.end_ts ∧
        row.2.2 = some r.reason)) ∧
    row.2.1 - row.1 ≥ tolerance * usPerSecond

end Utils

namespace GetTimeGaps

/-- The result of `get_presigned_url`: the object key written to the
response bucket and the `ExpiresIn` argument passed to
`generate_presigned_url`. -/
structure Presigned where
  key : String
  expiresIn : Nat
deriving DecidableEq

/-- `get_presigned_url` of `getTimeGaps.py`: store the body under
`gaps/{collection_id}/{timestamp}.json` and sign a URL valid for 3600
seconds. -/
def get_presigned_url (collection_id timestamp : String) : Presigned :=
  ⟨"gaps/" ++ collection_id ++ "/" ++ timestamp ++ ".json", 3600⟩

/-- The JSON body of a gap-query response. -/
inductive RespBody where
  | gaps (timeGaps : List (Int × Int × Option String)) (gapTolerance : Int)
  | message (msg : String)
  | presigned (msg : String) (url : Presigned)
deriving DecidableEq

/-- An HTTP response of `getTimeGaps.py`. -/
structure Response where
  statusCode : Nat
  body : RespBody
deriving DecidableEq

/-- The Lambda response payload limit tested by `lambda_handler`:
`6 * 1024 * 1024` bytes. -/
def size_threshold : Nat := 6 * 1024 * 1024

/-- The response-building tail of `lambda_handler` in `getTimeGaps.py`,
after parameter validation and the database fetch: `registered` is the
`check_gap_config` result, `time_gaps` the `fetch_time_gaps` result,
`responseSize` stands for `len(json.dumps(body).encode("utf-8"))` — the
byte length of the serialized body, computed outside the model. -/
def lambda_handler (registered : Bool)
    (time_gaps : List (Int × Int × Option String)) (granule_gap : Int)
    (responseSize : Nat) (collection_id timestamp : String) : Response :=
  if !registered then
    ⟨400, .message ("Collection " ++ collection_id ++
      " has not been initialized for gap detection.")⟩
  else if time_gaps.isEmpty then
    ⟨200, .message "No qualifying time gaps found."⟩
  else if responseSize > size_threshold then
    ⟨200, .presigned "Too many results for response, use the presigned URL"
      (get_presigned_url collection_id timestamp)⟩
  else
    ⟨200, .gaps time_gaps granule_gap⟩

end GetTimeGaps

namespace GapConfig

/-- Python `str.lower()` restricted to ASCII letters (the `CMR_ENV` values
are `SIT`, `UAT`, `PROD`). -/
def toLowerAscii (s : String) : String :=
  ⟨s.data.map fun c =>
    if 'A' ≤ c ∧ c ≤ 'Z' then Char.ofNat (c.toNat + 32) else c⟩

/-- The URL built by `get_cmr_time` in `gapConfig.py`.  (`get_cmr_time`
receives `collection_id` and splits it back into the short name and version
its callers joined; the model takes the two parts, and applies the
`version.replace("_", ".")` of the source.) -/
def get_cmr_time_url (short_name version cmr_env : String) : String :=
  let version : String := ⟨version.data.map fun c => if c == '_' then '.' else c⟩
  let env := toLowerAscii cmr_env
  if env == "prod" then
    "https://cmr.earthdata.nasa.gov/search/collections.umm_json_v1_4?short_name="
      ++ short_name ++ "&version=" ++ version
  else
    "https://cmr." ++ env ++
      ".earthdata.nasa.gov/search/collections.umm_json_v1_4?short_name=" ++
      short_name ++ "&version=" ++ version

/-- The catalog URL used by `process_collection` in
`gapMigrationStreamMessageCompiler.py` for granule pagination: a constant,
independent of `CMR_ENV`. -/
def process_collection_cmr_url : String :=
  "https://cmr.earthdata.nasa.gov/search/granules.json"

/-- The claimed catalog base URL, written from the specification's words:
`https://cmr.{env}.earthdata.nasa.gov/search/...` for non-prod
environments and `https://cmr.earthdata.nasa.gov/search/...` for prod. -/
def specCmrBase (cmr_env : String) : String :=
  if toLowerAscii cmr_env == "prod" then
    "https://cmr.earthdata.nasa.gov/search/"
  else
    "https://cmr." ++ toLowerAscii cmr_env ++ ".earthdata.nasa.gov/search/"

end GapConfig

namespace Compiler

/-- Python `round` applied to the exact fraction `a / b` (`b > 0`): the
nearest integer, ties to even.  This is also literally CPython's
`_divide_and_round`, the rounding of `timedelta` division. -/
def pyRoundDiv (a b : Int) : Int :=
  let f := a / b
  let r := a % b
  if 2 * r < b then f
  else if b < 2 * r then f + 1
  else if f % 2 = 0 then f else f + 1

/-- The clamp `max(1, min(num_granules / (2000 * 10), 8))` of `get_params`,
as an exact fraction (numerator, positive denominator): the quotient is `8`
when `N ≥ 8·20000`, `1` when `N ≤ 20000`, and `N / 20000` in between. -/
def clampedProducerFrac (num_granules : ℕ) : Int × Int :=
  if 160000 ≤ (num_granules : Int) then (8, 1)
  else if (num_granules : Int) ≤ 20000 then (1, 1)
  else ((num_granules : Int), 20000)

/-- The resource computation of `get_params` in
`gapMigrationStreamMessageCompiler.py`: producer count
`round(max(1, min(N / (2000·10), 8)))`, consumer count `round(P · 1.5)`
(`P · 1.5 = 3P/2` exactly) and queue size `P · 2 · 2000`. -/
def get_params_counts (num_granules : ℕ) : ℤ × ℤ × ℤ :=
  let frac := clampedProducerFrac num_granules
  let n_producers := pyRoundDiv frac.1 frac.2
  let n_consumers := pyRoundDiv (3 * n_producers) 2
  (n_producers, n_consumers, n_producers * 2 * 2000)

/-- `split_date_ranges` of `gapMigrationStreamMessageCompiler.py` over
microsecond timestamps: `delta = (end - start) / num_ranges` is a Python
`timedelta` division, rounded to whole microseconds with ties to even; the
i-th subrange is `(start + delta·i, start + delta·(i+1))`. -/
def split_date_ranges (start_date end_date : Int) (num_ranges : ℕ) :
    List (Int × Int) :=
  let delta := pyRoundDiv (end_date - start_date) (num_ranges : Int)
  (List.range num_ranges).map fun i =>
    (start_date + delta * Int.ofNat i, start_date + delta * (Int.ofNat i + 1))

end Compiler

/-! ## Coverage lemmas for range lists -/

theorem covList_nil (t : Int) : ¬ covList [] t := by
  simp [covList]

theorem covList_nil_iff (t : Int) : covList [] t ↔ False := by
  simp [covList]

theorem covList_cons (r : Tsrange) (l : List Tsrange) (t : Int) :
    covList (r :: l) t ↔ r.containsPt t ∨ covList l t := by
  simp [covList]

theorem covList_append (l₁ l₂ : List Tsrange) (t : Int) :
    covList (l₁ ++ l₂) t ↔ covList l₁ t ∨ covList l₂ t := by
  simp [covList, List.mem_append, or_and_right, exists_or]

theorem covList_perm {l₁ l₂ : List Tsrange} (h : l₁.Perm l₂) (t : Int) :
    covList l₁ t ↔ covList l₂ t := by
  unfold covList
  constructor
  · rintro ⟨r, hr, hc⟩; exact ⟨r, h.mem_iff.mp hr, hc⟩
  · rintro ⟨r, hr, hc⟩; exact ⟨r, h.mem_iff.mpr hr, hc⟩

theorem covList_mergeInto (rest : List Tsrange) (cur : Tsrange)
    (hs : (cur :: rest).Sorted loLE) (t : Int) :
    covList (mergeInto cur rest) t ↔ cur.containsPt t ∨ covList rest t := by
  induction rest generalizing cur with
  | nil => simp [mergeInto, covList]
  | cons r rest ih =>
    rw [List.sorted_cons] at hs
    obtain ⟨hcur, hrest⟩ := hs
    rw [mergeInto]
    by_cases hle : r.lo ≤ cur.hi
    · rw [if_pos hle]
      have hsorted : (Tsrange.mk cur.lo (max cur.hi r.hi) :: rest).Sorted loLE := by
        rw [List.sorted_cons]
        refine ⟨fun b hb => ?_, (List.sorted_cons.mp hrest).2⟩
        exact hcur b (List.mem_cons_of_mem r hb)
      rw [ih _ hsorted, covList_cons]
      have hlo : cur.lo ≤ r.lo := hcur r (List.mem_cons_self r rest)
      have hkey : (Tsrange.mk cur.lo (max cur.hi r.hi)).containsPt t ↔
          cur.containsPt t ∨ r.containsPt t := by
        unfold Tsrange.containsPt
        simp only
        omega
      rw [hkey]
      tauto
    · rw [if_neg hle, covList_cons, ih r hrest, covList_cons]

theorem covList_rangeAgg (rs : List Tsrange) (t : Int) :
    covList (rangeAgg rs) t ↔ covList rs t := by
  have hperm := List.perm_insertionSort loLE rs
  have hsorted := List.sorted_insertionSort loLE rs
  rw [← covList_perm hperm t]
  unfold rangeAgg
  cases h : List.insertionSort loLE rs with
  | nil => exact Iff.rfl
  | cons r rest =>
    rw [h] at hsorted
    show covList (mergeInto r rest) t ↔ covList (r :: rest) t
    rw [covList_mergeInto rest r hsorted t, covList_cons]

theorem covState_iff_covList (tbl : List GapRow) (cid : String) (t : Int) :
    covState tbl cid t ↔ covList (collGaps tbl cid) t := by
  unfold covState collGaps covList
  simp only [List.mem_map, List.mem_filter, beq_iff_eq]
  constructor
  · rintro ⟨g, hg, hcid, hc⟩; exact ⟨g.range, ⟨g, ⟨hg, hcid⟩, rfl⟩, hc⟩
  · rintro ⟨r, ⟨g, ⟨hg, hcid⟩, rfl⟩, hc⟩; exact ⟨g, hg, hcid, hc⟩

/-! ## C3: merge-on-delete -/

namespace GapUpdate

theorem covState_append (t₁ t₂ : List GapRow) (cid : String) (t : Int) :
    covState (t₁ ++ t₂) cid t ↔ covState t₁ cid t ∨ covState t₂ cid t := by
  simp [covState, List.mem_append, or_and_right, exists_or]

theorem covList_inputRangesFor_of_not_mem (inputs : List GranuleRecord)
    (cid : String) (h : cid ∉ inputCids inputs) :
    inputRangesFor inputs cid = [] := by
  unfold inputRangesFor
  rw [List.filterMap_eq_nil_iff]
  intro ir hir
  have : ir.collection_id ≠ cid := by
    intro heq
    exact h (by
      unfold inputCids
      rw [List.mem_dedup]
      exact List.mem_map.mpr ⟨ir, hir, heq⟩)
  simp [this]

theorem touchedBy_mem_inputCids (inputs : List GranuleRecord) (g : GapRow)
    (h : touchedBy inputs g = true) : g.collection_id ∈ inputCids inputs := by
  unfold touchedBy at h
  rw [List.any_eq_true] at h
  obtain ⟨ir, hir, hcond⟩ := h
  rw [Bool.and_eq_true, beq_iff_eq] at hcond
  unfold inputCids
  rw [List.mem_dedup]
  exact List.mem_map.mpr ⟨ir, hir, hcond.1⟩

theorem covState_filter_partition (tbl : List GapRow) (p : GapRow → Bool)
    (cid : String) (t : Int) :
    covState tbl cid t ↔
      covState (tbl.filter p) cid t ∨
        covState (tbl.filter fun g => !p g) cid t := by
  unfold covState
  constructor
  · rintro ⟨g, hg, hcid, hc⟩
    by_cases hp : p g = true
    · exact Or.inl ⟨g, List.mem_filter.mpr ⟨hg, hp⟩, hcid, hc⟩
    · refine Or.inr ⟨g, List.mem_filter.mpr ⟨hg, ?_⟩, hcid, hc⟩
      simp [hp]
  · rintro (⟨g, hg, hcid, hc⟩ | ⟨g, hg, hcid, hc⟩) <;>
      exact ⟨g, (List.mem_filter.mp hg).1, hcid, hc⟩

theorem removedRangesFor_eq_collGaps (tbl : List GapRow)
    (inputs : List GranuleRecord) (c : String) :
    removedRangesFor tbl inputs c = collGaps (tbl.filter (touchedBy inputs)) c :=
  rfl

theorem removedRangesFor_of_not_mem (tbl : List GapRow)
    (inputs : List GranuleRecord) (cid : String)
    (h : cid ∉ inputCids inputs) :
    removedRangesFor tbl inputs cid = [] := by
  unfold removedRangesFor
  rw [List.map_eq_nil_iff, List.filter_eq_nil_iff]
  intro g hg
  rw [List.mem_filter] at hg
  rw [beq_iff_eq]
  intro heq
  exact h (heq ▸ touchedBy_mem_inputCids inputs g hg.2)

theorem covState_merged_part (tbl : List GapRow) (inputs : List GranuleRecord)
    (cid : String) (t : Int) :
    covState
      ((inputCids inputs).flatMap fun c =>
        (rangeAgg (inputRangesFor inputs c ++ removedRangesFor tbl inputs c)).map
          fun r => ⟨c, r.lo, r.hi⟩) cid t ↔
    cid ∈ inputCids inputs ∧
      covList (rangeAgg (inputRangesFor inputs cid ++ removedRangesFor tbl inputs cid)) t := by
  unfold covState covList
  constructor
  · rintro ⟨g, hg, hcid, hc⟩
    rw [List.mem_flatMap] at hg
    obtain ⟨c, hcmem, hg⟩ := hg
    rw [List.mem_map] at hg
    obtain ⟨r, hr, rfl⟩ := hg
    simp only at hcid
    subst hcid
    refine ⟨hcmem, r, hr, ?_⟩
    exact hc
  · rintro ⟨hmem, r, hr, hc⟩
    refine ⟨⟨cid, r.lo, r.hi⟩, ?_, rfl, hc⟩
    rw [List.mem_flatMap]
    exact ⟨cid, hmem, List.mem_map.mpr ⟨r, hr, rfl⟩⟩

theorem covState_add_gaps (tbl : List GapRow) (inputs : List GranuleRecord)
    (cid : String) (t : Int) :
    covState (add_gaps tbl inputs) cid t ↔
      covState tbl cid t ∨ covList (inputRangesFor inputs cid) t := by
  unfold add_gaps
  rw [covState_append, covState_merged_part,
    covState_filter_partition tbl (touchedBy inputs) cid t]
  by_cases hmem : cid ∈ inputCids inputs
  · rw [covList_rangeAgg, covList_append, removedRangesFor_eq_collGaps,
      ← covState_iff_covList]
    simp only [hmem, true_and]
    tauto
  · have h₁ := covList_inputRangesFor_of_not_mem inputs cid hmem
    have h₂ : covState (tbl.filter (touchedBy inputs)) cid t ↔ False := by
      simp only [iff_false]
      rintro ⟨g, hg, hcid, _⟩
      rw [List.mem_filter] at hg
      exact hmem (hcid ▸ touchedBy_mem_inputCids inputs g hg.2)
    simp only [hmem, false_and, or_false, h₁, h₂, false_or]
    exact (iff_of_eq (congrArg _ rfl)).trans (by simp [covList])

/-- C3: for a batch of delete events, each granule range is staged with its
end rounded up to the next whole second (the smallest whole-second timestamp
strictly above it, hence a nonempty range); every existing gap neither
overlapping nor adjacent to a staged range of its collection survives
unchanged; and per collection the resulting gap set covers exactly the union
of the previously existing gaps and the staged rounded granule ranges. -/
theorem add_gaps_is_range_union (tbl : List GapRow) (inputs : List GranuleRecord)
    (hval : ∀ r ∈ inputs, r.start_ts ≤ r.end_ts) :
    (∀ r ∈ inputs, (inputRange r).lo < (inputRange r).hi ∧
      (inputRange r).hi % usPerSecond = 0 ∧ r.end_ts < (inputRange r).hi ∧
      (∀ m, m % usPerSecond = 0 → r.end_ts < m → (inputRange r).hi ≤ m)) ∧
    (∀ g ∈ tbl, touchedBy inputs g = false → g ∈ add_gaps tbl inputs) ∧
    (∀ cid t, covState (add_gaps tbl inputs) cid t ↔
      covState tbl cid t ∨ covList (inputRangesFor inputs cid) t) := by
  refine ⟨?_, ?_, covState_add_gaps tbl inputs⟩
  · intro r hr
    have hv := hval r hr
    simp only [inputRange, roundUpSec, usPerSecond]
    refine ⟨by omega, by omega, by omega, ?_⟩
    intro m hm hlt
    omega
  · intro g hg ht
    unfold add_gaps
    rw [List.mem_append]
    exact Or.inl (List.mem_filter.mpr ⟨hg, by simp [ht]⟩)

/-- Witness for C3 at a concrete instance: an existing gap `[0s, 10s)` of
collection A and one deleted granule `[10s, 12.5s]`. -/
theorem add_gaps_is_range_union_witness :
    (∀ r ∈ [(⟨"A", 10000000, 12500000⟩ : GranuleRecord)], r.start_ts ≤ r.end_ts) ∧
    ((∀ r ∈ [(⟨"A", 10000000, 12500000⟩ : GranuleRecord)],
        (inputRange r).lo < (inputRange r).hi ∧
        (inputRange r).hi % usPerSecond = 0 ∧ r.end_ts < (inputRange r).hi ∧
        (∀ m, m % usPerSecond = 0 → r.end_ts < m → (inputRange r).hi ≤ m)) ∧
      (∀ g ∈ [(⟨"A", 0, 10000000⟩ : GapRow)],
        touchedBy [⟨"A", 10000000, 12500000⟩] g = false →
          g ∈ add_gaps [⟨"A", 0, 10000000⟩] [⟨"A", 10000000, 12500000⟩]) ∧
      (∀ cid t,
        covState (add_gaps [⟨"A", 0, 10000000⟩] [⟨"A", 10000000, 12500000⟩]) cid t ↔
          covState [⟨"A", 0, 10000000⟩] cid t ∨
            covList (inputRangesFor [⟨"A", 10000000, 12500000⟩] cid) t)) :=
  ⟨by decide, add_gaps_is_range_union _ _ (by decide)⟩

end GapUpdate

/-! ## C4: split-on-add (ingest), spec-modelled -/

namespace GapUpdate

theorem overlaps_eq_true (a b : Tsrange) :
    a.overlaps b = true ↔ max a.lo b.lo < min a.hi b.hi := by
  simp [Tsrange.overlaps]

theorem overlaps_eq_false (a b : Tsrange) :
    a.overlaps b = false ↔ ¬ max a.lo b.lo < min a.hi b.hi := by
  simp [Tsrange.overlaps]

theorem covList_subOne (g a : Tsrange) (t : Int) :
    covList (subOne g a) t ↔ g.containsPt t ∧ ¬ a.containsPt t := by
  unfold subOne
  split_ifs with h1 h2 h3 h4
  · rw [overlaps_eq_false] at h1
    simp only [covList_cons, covList_nil, or_false, Tsrange.containsPt]
    omega
  all_goals
    have ho : max g.lo a.lo < min g.hi a.hi := by
      rw [← overlaps_eq_true]
      revert h1
      cases g.overlaps a <;> simp
  all_goals
    simp only [covList_cons, covList_nil_iff, or_false, false_iff,
      Tsrange.containsPt]
  all_goals omega

theorem subOne_bounds (g a q : Tsrange) (hg : g.lo < g.hi)
    (hq : q ∈ subOne g a) :
    q.lo < q.hi ∧ g.lo ≤ q.lo ∧ q.hi ≤ g.hi := by
  unfold subOne at hq
  split_ifs at hq with h1 h2 h3 h4 <;>
    simp only [List.mem_cons, List.not_mem_nil, List.mem_singleton, or_false] at hq
  · subst hq; omega
  · rcases hq with rfl | rfl <;>
      (first | (simp only; omega) |
        (rw [Bool.not_eq_false, overlaps_eq_true] at h1; simp only; omega))
  · subst hq
    rw [Bool.not_eq_false, overlaps_eq_true] at h1
    simp only
    omega
  · subst hq
    rw [Bool.not_eq_false, overlaps_eq_true] at h1
    simp only
    omega

theorem foldl_subtract_nil (A : List Tsrange) :
    A.foldl (fun ps a => ps.flatMap fun p => subOne p a) [] = [] := by
  induction A with
  | nil => rfl
  | cons a A ih => simpa using ih

theorem foldl_subtract_append (A : List Tsrange) (ps₁ ps₂ : List Tsrange) :
    A.foldl (fun ps a => ps.flatMap fun p => subOne p a) (ps₁ ++ ps₂) =
      A.foldl (fun ps a => ps.flatMap fun p => subOne p a) ps₁ ++
        A.foldl (fun ps a => ps.flatMap fun p => subOne p a) ps₂ := by
  induction A generalizing ps₁ ps₂ with
  | nil => rfl
  | cons a A ih =>
    simp only [List.foldl_cons, List.flatMap_append]
    exact ih _ _

theorem foldl_subtract_eq_flatMap (A : List Tsrange) (ps : List Tsrange) :
    A.foldl (fun ps a => ps.flatMap fun p => subOne p a) ps =
      ps.flatMap fun q =>
        A.foldl (fun ps a => ps.flatMap fun p => subOne p a) [q] := by
  induction ps with
  | nil => simp [foldl_subtract_nil]
  | cons q ps ih =>
    have h : q :: ps = [q] ++ ps := rfl
    rw [h, foldl_subtract_append, List.flatMap_append, ih]
    simp

theorem pieces_cons (g a : Tsrange) (A : List Tsrange) :
    pieces g (a :: A) = (subOne g a).flatMap fun q => pieces q A := by
  unfold pieces
  rw [List.foldl_cons]
  have hstep : [g].flatMap (fun p => subOne p a) = subOne g a := by
    simp
  rw [hstep]
  exact foldl_subtract_eq_flatMap A (subOne g a)

theorem covList_flatMap {α : Type} (l : List α) (f : α → List Tsrange) (t : Int) :
    covList (l.flatMap f) t ↔ ∃ x ∈ l, covList (f x) t := by
  unfold covList
  simp only [List.mem_flatMap]
  constructor
  · rintro ⟨r, ⟨x, hx, hr⟩, hc⟩; exact ⟨x, hx, r, hr, hc⟩
  · rintro ⟨x, hx, r, hr, hc⟩; exact ⟨r, ⟨x, hx, hr⟩, hc⟩

theorem covList_pieces (A : List Tsrange) (g : Tsrange) (t : Int) :
    covList (pieces g A) t ↔ g.containsPt t ∧ ¬ covList A t := by
  induction A generalizing g with
  | nil =>
    unfold pieces
    simp [covList_cons, covList_nil, covList]
  | cons a A ih =>
    rw [pieces_cons, covList_flatMap]
    constructor
    · rintro ⟨q, hq, hc⟩
      rw [ih q] at hc
      have hsub : covList (subOne g a) t := ⟨q, hq, (hc.1 : q.containsPt t)⟩
      rw [covList_subOne] at hsub
      rw [covList_cons]
      exact ⟨hsub.1, fun h => h.elim hsub.2 hc.2⟩
    · rintro ⟨hgc, hnc⟩
      rw [covList_cons, not_or] at hnc
      have hsub : covList (subOne g a) t := by
        rw [covList_subOne]; exact ⟨hgc, hnc.1⟩
      obtain ⟨q, hq, hc⟩ := hsub
      exact ⟨q, hq, (ih q).mpr ⟨hc, hnc.2⟩⟩

theorem avoid_cons_iff (p a : Tsrange) (A : List Tsrange) :
    (∀ t, p.containsPt t → ¬ covList (a :: A) t) ↔
      (∀ t, p.containsPt t → ¬ a.containsPt t) ∧
        (∀ t, p.containsPt t → ¬ covList A t) := by
  constructor
  · intro h
    exact ⟨fun t ht hc => h t ht ((covList_cons _ _ _).mpr (Or.inl hc)),
      fun t ht hc => h t ht ((covList_cons _ _ _).mpr (Or.inr hc))⟩
  · rintro ⟨h₁, h₂⟩ t ht hc
    rw [covList_cons] at hc
    exact hc.elim (h₁ t ht) (h₂ t ht)

theorem isPiece_cons (g a : Tsrange) (A : List Tsrange) (p : Tsrange) :
    isPiece g (a :: A) p ↔ ∃ q ∈ subOne g a, isPiece q A p := by
  unfold subOne
  split_ifs with h1 h2 h3 h4
  -- no overlap: the gap is untouched by this granule
  · rw [overlaps_eq_false] at h1
    simp only [List.mem_singleton, exists_eq_left]
    unfold isPiece
    rw [avoid_cons_iff]
    constructor
    · rintro ⟨hne, hlo, hhi, ⟨hava, havA⟩, hbl, hbr⟩
      refine ⟨hne, hlo, hhi, havA, ?_, ?_⟩
      · rcases hbl with h | h
        · exact Or.inl h
        · rw [covList_cons] at h
          rcases h with h | h
          · left
            by_contra hpl
            unfold Tsrange.containsPt at h
            omega
          · exact Or.inr h
      · rcases hbr with h | h
        · exact Or.inl h
        · rw [covList_cons] at h
          rcases h with h | h
          · left
            by_contra hph
            unfold Tsrange.containsPt at h
            omega
          · exact Or.inr h
    · rintro ⟨hne, hlo, hhi, havA, hbl, hbr⟩
      refine ⟨hne, hlo, hhi, ⟨?_, havA⟩, ?_, ?_⟩
      · intro t ht
        unfold Tsrange.containsPt at *
        omega
      · rcases hbl with h | h
        · exact Or.inl h
        · exact Or.inr ((covList_cons _ _ _).mpr (Or.inr h))
      · rcases hbr with h | h
        · exact Or.inl h
        · exact Or.inr ((covList_cons _ _ _).mpr (Or.inr h))
  -- full cover: no piece survives
  · simp only [List.not_mem_nil, false_and, exists_false, iff_false]
    rintro ⟨hne, hlo, hhi, havoid, -, -⟩
    have hp := havoid p.lo ⟨le_refl _, hne⟩
    rw [covList_cons] at hp
    refine hp (Or.inl ?_)
    unfold Tsrange.containsPt
    omega
  -- strictly interior: two pieces
  · have ho : max g.lo a.lo < min g.hi a.hi := by
      rw [← overlaps_eq_true]
      revert h1
      cases g.overlaps a <;> simp
    simp only [List.mem_cons, List.mem_singleton, List.not_mem_nil, or_false]
    unfold isPiece
    rw [avoid_cons_iff]
    constructor
    · rintro ⟨hne, hlo, hhi, ⟨hava, havA⟩, hbl, hbr⟩
      have hdi : p.hi ≤ a.lo ∨ a.hi ≤ p.lo := by
        by_contra hcon
        push_neg at hcon
        have ht : p.containsPt (max p.lo a.lo) := by
          unfold Tsrange.containsPt
          omega
        have := hava _ ht
        unfold Tsrange.containsPt at this
        omega
      rcases hdi with hd | hd
      · refine ⟨⟨g.lo, a.lo⟩, Or.inl rfl, hne, hlo, hd, havA, ?_, ?_⟩
        · rcases hbl with h | h
          · exact Or.inl h
          · rw [covList_cons] at h
            rcases h with h | h
            · exfalso
              unfold Tsrange.containsPt at h
              omega
            · exact Or.inr h
        · rcases hbr with h | h
          · exfalso
            omega
          · rw [covList_cons] at h
            rcases h with h | h
            · left
              unfold Tsrange.containsPt at h
              simp only
              omega
            · exact Or.inr h
      · refine ⟨⟨a.hi, g.hi⟩, Or.inr rfl, hne, hd, hhi, havA, ?_, ?_⟩
        · rcases hbl with h | h
          · exfalso
            omega
          · rw [covList_cons] at h
            rcases h with h | h
            · left
              unfold Tsrange.containsPt at h
              simp only
              omega
            · exact Or.inr h
        · rcases hbr with h | h
          · exact Or.inl h
          · rw [covList_cons] at h
            rcases h with h | h
            · exfalso
              unfold Tsrange.containsPt at h
              omega
            · exact Or.inr h
    · rintro ⟨q, hq | hq, hne, hlo, hhi, havA, hbl, hbr⟩ <;> subst hq
      · simp only at hlo hhi hbl hbr
        refine ⟨hne, hlo, by omega, ⟨?_, havA⟩, ?_, ?_⟩
        · intro t ht
          unfold Tsrange.containsPt at *
          omega
        · rcases hbl with h | h
          · exact Or.inl h
          · exact Or.inr ((covList_cons _ _ _).mpr (Or.inr h))
        · rcases hbr with h | h
          · refine Or.inr ((covList_cons _ _ _).mpr (Or.inl ?_))
            unfold Tsrange.containsPt
            omega
          · exact Or.inr ((covList_cons _ _ _).mpr (Or.inr h))
      · simp only at hlo hhi hbl hbr
        refine ⟨hne, by omega, hhi, ⟨?_, havA⟩, ?_, ?_⟩
        · intro t ht
          unfold Tsrange.containsPt at *
          omega
        · rcases hbl with h | h
          · refine Or.inr ((covList_cons _ _ _).mpr (Or.inl ?_))
            unfold Tsrange.containsPt
            omega
          · exact Or.inr ((covList_cons _ _ _).mpr (Or.inr h))
        · rcases hbr with h | h
          · exact Or.inl h
          · exact Or.inr ((covList_cons _ _ _).mpr (Or.inr h))
  -- left edge covered: one right piece
  · have ho : max g.lo a.lo < min g.hi a.hi := by
      rw [← overlaps_eq_true]
      revert h1
      cases g.overlaps a <;> simp
    simp only [List.mem_singleton, exists_eq_left]
    unfold isPiece
    rw [avoid_cons_iff]
    constructor
    · rintro ⟨hne, hlo, hhi, ⟨hava, havA⟩, hbl, hbr⟩
      have hd : a.hi ≤ p.lo := by
        by_contra hcon
        push_neg at hcon
        have ht : p.containsPt p.lo := ⟨le_refl _, hne⟩
        have := hava _ ht
        unfold Tsrange.containsPt at this
        omega
      simp only
      refine ⟨hne, hd, hhi, havA, ?_, ?_⟩
      · rcases hbl with h | h
        · exfalso
          omega
        · rw [covList_cons] at h
          rcases h with h | h
          · left
            unfold Tsrange.containsPt at h
            omega
          · exact Or.inr h
      · rcases hbr with h | h
        · exact Or.inl h
        · rw [covList_cons] at h
          rcases h with h | h
          · exfalso
            unfold Tsrange.containsPt at h
            omega
          · exact Or.inr h
    · rintro ⟨hne, hlo, hhi, havA, hbl, hbr⟩
      simp only at hne hlo hhi hbl hbr
      refine ⟨hne, by omega, hhi, ⟨?_, havA⟩, ?_, ?_⟩
      · intro t ht
        unfold Tsrange.containsPt at *
        omega
      · rcases hbl with h | h
        · refine Or.inr ((covList_cons _ _ _).mpr (Or.inl ?_))
          unfold Tsrange.containsPt
          omega
        · exact Or.inr ((covList_cons _ _ _).mpr (Or.inr h))
      · rcases hbr with h | h
        · exact Or.inl h
        · exact Or.inr ((covList_cons _ _ _).mpr (Or.inr h))
  -- right edge covered: one left piece
  · have ho : max g.lo a.lo < min g.hi a.hi := by
      rw [← overlaps_eq_true]
      revert h1
      cases g.overlaps a <;> simp
    simp only [List.mem_singleton, exists_eq_left]
    unfold isPiece
    rw [avoid_cons_iff]
    constructor
    · rintro ⟨hne, hlo, hhi, ⟨hava, havA⟩, hbl, hbr⟩
      have hd : p.hi ≤ a.lo := by
        by_contra hcon
        push_neg at hcon
        have ht : p.containsPt (p.hi - 1) := by
          unfold Tsrange.containsPt
          omega
        have := hava _ ht
        unfold Tsrange.containsPt at this
        omega
      simp only
      refine ⟨hne, hlo, hd, havA, ?_, ?_⟩
      · rcases hbl with h | h
        · exact Or.inl h
        · rw [covList_cons] at h
          rcases h with h | h
          · exfalso
            unfold Tsrange.containsPt at h
            omega
          · exact Or.inr h
      · rcases hbr with h | h
        · exfalso
          omega
        · rw [covList_cons] at h
          rcases h with h | h
          · left
            unfold Tsrange.containsPt at h
            omega
          · exact Or.inr h
    · rintro ⟨hne, hlo, hhi, havA, hbl, hbr⟩
      simp only at hne hlo hhi hbl hbr
      refine ⟨hne, hlo, by omega, ⟨?_, havA⟩, ?_, ?_⟩
      · intro t ht
        unfold Tsrange.containsPt at *
        omega
      · rcases hbl with h | h
        · exact Or.inl h
        · exact Or.inr ((covList_cons _ _ _).mpr (Or.inr h))
      · rcases hbr with h | h
        · refine Or.inr ((covList_cons _ _ _).mpr (Or.inl ?_))
          unfold Tsrange.containsPt
          omega
        · exact Or.inr ((covList_cons _ _ _).mpr (Or.inr h))

theorem mem_pieces_iff (A : List Tsrange) (p : Tsrange) :
    ∀ g : Tsrange, g.lo < g.hi → (p ∈ pieces g A ↔ isPiece g A p) := by
  induction A with
  | nil =>
    intro g hg
    unfold pieces
    simp only [List.foldl_nil, List.mem_singleton]
    unfold isPiece
    constructor
    · rintro rfl
      exact ⟨hg, le_refl _, le_refl _, fun t _ => covList_nil t,
        Or.inl rfl, Or.inl rfl⟩
    · rintro ⟨hne, hlo, hhi, hav, hbl, hbr⟩
      rcases hbl with h | h
      · rcases hbr with h' | h'
        · cases p
          cases g
          simp_all
        · exact absurd h' (covList_nil _)
      · exact absurd h (covList_nil _)
  | cons a A ih =>
    intro g hg
    rw [pieces_cons, List.mem_flatMap, isPiece_cons]
    constructor
    · rintro ⟨q, hq, hp⟩
      have hb := subOne_bounds g a q hg hq
      exact ⟨q, hq, (ih q hb.1).mp hp⟩
    · rintro ⟨q, hq, hp⟩
      have hb := subOne_bounds g a q hg hq
      exact ⟨q, hq, (ih q hb.1).mpr hp⟩

theorem update_gaps_eq_flatMap (rs : List GranuleRecord) (tbl : List GapRow) :
    update_gaps tbl rs =
      tbl.flatMap fun g =>
        (pieces g.range (grRangesFor rs g.collection_id)).map
          fun q => ⟨g.collection_id, q.lo, q.hi⟩ := by
  induction rs generalizing tbl with
  | nil =>
    unfold update_gaps pieces grRangesFor
    simp only [List.foldl_nil, List.filterMap_nil, List.map_cons, List.map_nil]
    symm
    have h : ∀ g : GapRow,
        [(⟨g.collection_id, g.range.lo, g.range.hi⟩ : GapRow)] = [g] := by
      intro g
      rfl
    calc tbl.flatMap (fun g => [(⟨g.collection_id, g.range.lo, g.range.hi⟩ : GapRow)])
        = tbl.flatMap fun g => [g] := List.flatMap_congr fun g _ => h g
      _ = tbl := by simp
  | cons r rs ih =>
    show update_gaps (applyGranule tbl r) rs = _
    rw [ih (applyGranule tbl r)]
    unfold applyGranule
    rw [List.flatMap_assoc]
    refine List.flatMap_congr fun g _ => ?_
    by_cases hcid : g.collection_id == r.collection_id
    · rw [if_pos hcid]
      rw [List.flatMap_map]
      have hgr : grRangesFor (r :: rs) g.collection_id =
          Tsrange.mk r.start_ts r.end_ts :: grRangesFor rs g.collection_id := by
        unfold grRangesFor
        rw [List.filterMap_cons]
        rw [beq_iff_eq] at hcid
        simp [hcid]
      rw [hgr, pieces_cons, List.map_flatMap]
      rfl
    · rw [if_neg hcid]
      rw [List.flatMap_singleton]
      have hgr : grRangesFor (r :: rs) g.collection_id =
          grRangesFor rs g.collection_id := by
        unfold grRangesFor
        rw [List.filterMap_cons]
        have : ¬ r.collection_id == g.collection_id := by
          rw [beq_iff_eq] at *
          intro h
          exact hcid (h.symm ▸ rfl)
        simp [this]
      rw [hgr]

theorem mem_update_gaps (tbl : List GapRow) (rs : List GranuleRecord)
    (row : GapRow) (hne : ∀ g ∈ tbl, g.start_ts < g.end_ts) :
    row ∈ update_gaps tbl rs ↔
      ∃ g ∈ tbl, g.collection_id = row.collection_id ∧
        isPiece g.range (grRangesFor rs g.collection_id) row.range := by
  rw [update_gaps_eq_flatMap, List.mem_flatMap]
  constructor
  · rintro ⟨g, hg, hmem⟩
    rw [List.mem_map] at hmem
    obtain ⟨q, hq, rfl⟩ := hmem
    exact ⟨g, hg, rfl, (mem_pieces_iff _ q g.range (hne g hg)).mp hq⟩
  · rintro ⟨g, hg, hcid, hp⟩
    refine ⟨g, hg, List.mem_map.mpr ⟨row.range, ?_, ?_⟩⟩
    · exact (mem_pieces_iff _ row.range g.range (hne g hg)).mpr hp
    · rw [hcid]
      rfl

theorem isPiece_congr (g p : Tsrange) {A A' : List Tsrange}
    (h : ∀ t, covList A t ↔ covList A' t) :
    isPiece g A p ↔ isPiece g A' p := by
  unfold isPiece
  constructor
  · rintro ⟨hne, hlo, hhi, hav, hbl, hbr⟩
    exact ⟨hne, hlo, hhi, fun t ht hc => hav t ht ((h t).mpr hc),
      hbl.imp id (h _).mp, hbr.imp id (h _).mp⟩
  · rintro ⟨hne, hlo, hhi, hav, hbl, hbr⟩
    exact ⟨hne, hlo, hhi, fun t ht hc => hav t ht ((h t).mp hc),
      hbl.imp id (h _).mpr, hbr.imp id (h _).mpr⟩

theorem covState_update_gaps (tbl : List GapRow) (rs : List GranuleRecord)
    (cid : String) (t : Int) :
    covState (update_gaps tbl rs) cid t ↔
      covState tbl cid t ∧ ¬ covList (grRangesFor rs cid) t := by
  rw [update_gaps_eq_flatMap]
  constructor
  · rintro ⟨row, hrow, hcid, hc⟩
    rw [List.mem_flatMap] at hrow
    obtain ⟨g, hg, hrow⟩ := hrow
    rw [List.mem_map] at hrow
    obtain ⟨q, hq, rfl⟩ := hrow
    simp only at hcid
    subst hcid
    have hcp : covList (pieces g.range (grRangesFor rs g.collection_id)) t :=
      ⟨q, hq, hc⟩
    rw [covList_pieces] at hcp
    exact ⟨⟨g, hg, rfl, hcp.1⟩, hcp.2⟩
  · rintro ⟨⟨g, hg, hcid, hc⟩, hnc⟩
    have hcp : covList (pieces g.range (grRangesFor rs g.collection_id)) t := by
      rw [covList_pieces]
      exact ⟨hc, by rw [hcid]; exact hnc⟩
    obtain ⟨q, hq, hqc⟩ := hcp
    refine ⟨⟨g.collection_id, q.lo, q.hi⟩, ?_, hcid, hqc⟩
    rw [List.mem_flatMap]
    exact ⟨g, hg, List.mem_map.mpr ⟨q, hq, rfl⟩⟩

/-- C4 (spec-modelled: `update_gaps.sql` is not in the sources, the ingest
algorithm follows §4.4.3 of the specification): ingest events of one batch
commute — permuting the granule list leaves the final gap set unchanged,
batching the list arbitrarily yields the same table as applying it in one
pass, and per collection the final gap set covers exactly the initial gap
set minus the union of the granule ranges. -/
theorem update_gaps_order_insensitive (tbl : List GapRow)
    (l₁ l₂ : List GranuleRecord) (bs : List (List GranuleRecord))
    (hne : ∀ g ∈ tbl, g.start_ts < g.end_ts) (hperm : l₁.Perm l₂)
    (hbatch : bs.flatten = l₁) :
    (∀ row, row ∈ update_gaps tbl l₁ ↔ row ∈ update_gaps tbl l₂) ∧
    (bs.foldl update_gaps tbl = update_gaps tbl l₁) ∧
    (∀ cid t, covState (update_gaps tbl l₁) cid t ↔
      covState tbl cid t ∧ ¬ covList (grRangesFor l₁ cid) t) := by
  refine ⟨?_, ?_, fun cid t => covState_update_gaps tbl l₁ cid t⟩
  · intro row
    rw [mem_update_gaps tbl l₁ row hne, mem_update_gaps tbl l₂ row hne]
    apply exists_congr
    intro g
    apply and_congr_right
    intro _
    apply and_congr_right
    intro _
    exact isPiece_congr _ _ fun t =>
      covList_perm (hperm.filterMap _) t
  · subst hbatch
    unfold update_gaps
    exact (List.foldl_flatten _ _ _).symm

/-- Witness for C4 at a concrete instance: one gap `[0, 10)` of collection
A, two granules applied in both orders, and the same list split into two
batches. -/
theorem update_gaps_order_insensitive_witness :
    ((∀ g ∈ [(⟨"A", 0, 10⟩ : GapRow)], g.start_ts < g.end_ts) ∧
      ([(⟨"A", 3, 5⟩ : GranuleRecord), ⟨"A", 7, 9⟩]).Perm [⟨"A", 7, 9⟩, ⟨"A", 3, 5⟩] ∧
      ([[(⟨"A", 3, 5⟩ : GranuleRecord)], [⟨"A", 7, 9⟩]]).flatten
        = [⟨"A", 3, 5⟩, ⟨"A", 7, 9⟩]) ∧
    ((∀ row, row ∈ update_gaps [⟨"A", 0, 10⟩] [⟨"A", 3, 5⟩, ⟨"A", 7, 9⟩] ↔
        row ∈ update_gaps [⟨"A", 0, 10⟩] [⟨"A", 7, 9⟩, ⟨"A", 3, 5⟩]) ∧
      (([[(⟨"A", 3, 5⟩ : GranuleRecord)], [⟨"A", 7, 9⟩]]).foldl update_gaps [⟨"A", 0, 10⟩]
        = update_gaps [⟨"A", 0, 10⟩] [⟨"A", 3, 5⟩, ⟨"A", 7, 9⟩]) ∧
      (∀ cid t,
        covState (update_gaps [⟨"A", 0, 10⟩] [⟨"A", 3, 5⟩, ⟨"A", 7, 9⟩]) cid t ↔
          covState [⟨"A", 0, 10⟩] cid t ∧
            ¬ covList (grRangesFor [⟨"A", 3, 5⟩, ⟨"A", 7, 9⟩] cid) t)) :=
  ⟨⟨by decide, by decide, by decide⟩,
    update_gaps_order_insensitive _ _ _ _ (by decide) (by decide) (by decide)⟩

/-! ## Grouping invariants of the gapUpdate handler -/

theorem groupStep_invariant (r : SQSRecord)
    (acc : List (String × List SQSRecord)) (seen : List SQSRecord)
    (hnd : (acc.map Prod.fst).Nodup)
    (hgrp : ∀ gr ∈ acc, gr.2 = seen.filter fun r' => recCid r' == gr.1)
    (hcov : ∀ c, c ∈ acc.map Prod.fst ↔ ∃ r' ∈ seen, recCid r' = c) :
    ((groupStep acc r).map Prod.fst).Nodup ∧
    (∀ gr ∈ groupStep acc r,
      gr.2 = (seen ++ [r]).filter fun r' => recCid r' == gr.1) ∧
    (∀ c, c ∈ (groupStep acc r).map Prod.fst ↔
      ∃ r' ∈ seen ++ [r], recCid r' = c) := by
  unfold groupStep
  by_cases hmem : acc.any (fun p => p.1 == recCid r) = true
  · rw [if_pos hmem]
    have hkeys : (acc.map fun p =>
        if p.1 == recCid r then (p.1, p.2 ++ [r]) else p).map Prod.fst =
        acc.map Prod.fst := by
      rw [List.map_map]
      refine List.map_congr_left fun p _ => ?_
      by_cases h : p.1 = recCid r <;> simp [h]
    have hkeymem : recCid r ∈ acc.map Prod.fst := by
      rw [List.any_eq_true] at hmem
      obtain ⟨p, hp, hpe⟩ := hmem
      rw [beq_iff_eq] at hpe
      exact hpe ▸ List.mem_map_of_mem Prod.fst hp
    refine ⟨hkeys ▸ hnd, ?_, ?_⟩
    · intro gr hgr
      rw [List.mem_map] at hgr
      obtain ⟨p, hp, rfl⟩ := hgr
      by_cases h : p.1 == recCid r
      · rw [if_pos h]
        rw [List.filter_append, ← hgrp p hp]
        rw [beq_iff_eq] at h
        simp [h]
      · rw [if_neg h]
        rw [List.filter_append, ← hgrp p hp]
        have : ¬ (recCid r == p.1) = true := by
          rw [beq_iff_eq] at *
          exact fun he => h he.symm
        simp [this]
    · intro c
      rw [hkeys, hcov c]
      constructor
      · rintro ⟨r', hr', he⟩
        exact ⟨r', List.mem_append_left _ hr', he⟩
      · rintro ⟨r', hr', he⟩
        rcases List.mem_append.mp hr' with h | h
        · exact ⟨r', h, he⟩
        · rw [List.mem_singleton] at h
          subst h
          subst he
          exact (hcov _).mp hkeymem
  · rw [if_neg hmem]
    have hnotin : recCid r ∉ acc.map Prod.fst := by
      intro hin
      rw [List.mem_map] at hin
      obtain ⟨p, hp, hpe⟩ := hin
      rw [List.any_eq_true] at hmem
      exact hmem ⟨p, hp, by rw [beq_iff_eq]; exact hpe⟩
    refine ⟨?_, ?_, ?_⟩
    · rw [List.map_append, List.nodup_append]
      refine ⟨hnd, List.nodup_singleton _, ?_⟩
      intro c hc hc'
      rw [List.map_singleton, List.mem_singleton] at hc'
      rw [hc'] at hc
      exact hnotin hc
    · intro gr hgr
      rcases List.mem_append.mp hgr with h | h
      · rw [List.filter_append, ← hgrp gr h]
        have : ¬ (recCid r == gr.1) = true := by
          rw [beq_iff_eq]
          intro he
          exact hnotin (he ▸ List.mem_map_of_mem Prod.fst h)
        simp [this]
      · rw [List.mem_singleton] at h
        subst h
        simp only
        rw [List.filter_append]
        have h₁ : seen.filter (fun r' => recCid r' == recCid r) = [] := by
          rw [List.filter_eq_nil_iff]
          intro r' hr' hbe
          rw [beq_iff_eq] at hbe
          exact hnotin ((hcov _).mpr ⟨r', hr', hbe⟩)
        rw [h₁]
        simp
    · intro c
      rw [List.map_append, List.map_singleton, List.mem_append,
        List.mem_singleton, hcov c]
      constructor
      · rintro (⟨r', hr', he⟩ | rfl)
        · exact ⟨r', List.mem_append_left _ hr', he⟩
        · exact ⟨r, List.mem_append_right _ (List.mem_singleton.mpr rfl), rfl⟩
      · rintro ⟨r', hr', he⟩
        rcases List.mem_append.mp hr' with h | h
        · exact Or.inl ⟨r', h, he⟩
        · rw [List.mem_singleton] at h
          subst h
          exact Or.inr he.symm

theorem groupByCid_fold_invariant (records : List SQSRecord) :
    ∀ (acc : List (String × List SQSRecord)) (seen : List SQSRecord),
      (acc.map Prod.fst).Nodup →
      (∀ gr ∈ acc, gr.2 = seen.filter fun r' => recCid r' == gr.1) →
      (∀ c, c ∈ acc.map Prod.fst ↔ ∃ r' ∈ seen, recCid r' = c) →
      ((records.foldl groupStep acc).map Prod.fst).Nodup ∧
      (∀ gr ∈ records.foldl groupStep acc,
        gr.2 = (seen ++ records).filter fun r' => recCid r' == gr.1) ∧
      (∀ c, c ∈ (records.foldl groupStep acc).map Prod.fst ↔
        ∃ r' ∈ seen ++ records, recCid r' = c) := by
  induction records with
  | nil =>
    intro acc seen hnd hgrp hcov
    simp only [List.foldl_nil, List.append_nil]
    exact ⟨hnd, hgrp, hcov⟩
  | cons r records ih =>
    intro acc seen hnd hgrp hcov
    obtain ⟨hnd', hgrp', hcov'⟩ := groupStep_invariant r acc seen hnd hgrp hcov
    have h := ih (groupStep acc r) (seen ++ [r]) hnd' hgrp' hcov'
    rw [List.append_assoc] at h
    simp only [List.foldl_cons]
    exact h

theorem groupByCid_keys_nodup (records : List SQSRecord) :
    ((groupByCid records).map Prod.fst).Nodup :=
  (groupByCid_fold_invariant records [] [] (by simp) (by simp) (by simp)).1

theorem groupByCid_groups (records : List SQSRecord) :
    ∀ gr ∈ groupByCid records,
      gr.2 = records.filter fun r' => recCid r' == gr.1 :=
  (groupByCid_fold_invariant records [] [] (by simp) (by simp) (by simp)).2.1

theorem groupByCid_keys (records : List SQSRecord) :
    ∀ c, c ∈ (groupByCid records).map Prod.fst ↔
      ∃ r' ∈ records, recCid r' = c :=
  (groupByCid_fold_invariant records [] [] (by simp) (by simp) (by simp)).2.2

theorem groupByCid_nonempty (records : List SQSRecord) :
    ∀ gr ∈ groupByCid records, gr.2 ≠ [] := by
  intro gr hgr
  have hkey : gr.1 ∈ (groupByCid records).map Prod.fst :=
    List.mem_map_of_mem Prod.fst hgr
  obtain ⟨r', hr', he⟩ := (groupByCid_keys records gr.1).mp hkey
  rw [groupByCid_groups records gr hgr]
  intro hempty
  rw [List.filter_eq_nil_iff] at hempty
  exact hempty r' hr' (by rw [beq_iff_eq]; exact he)

theorem find?_of_mem_nodup {gs : List (String × List SQSRecord)} {c : String}
    {recs : List SQSRecord} (hnd : (gs.map Prod.fst).Nodup)
    (hgr : (c, recs) ∈ gs) :
    gs.find? (fun gr => gr.1 == c) = some (c, recs) := by
  induction gs with
  | nil => exact absurd hgr (List.not_mem_nil _)
  | cons hd gs ih =>
    rw [List.map_cons, List.nodup_cons] at hnd
    rcases List.mem_cons.mp hgr with h | h
    · subst h
      exact List.find?_cons_of_pos _ (by rw [beq_iff_eq])
    · have hne : (hd.1 == c) = false := by
        rw [Bool.eq_false_iff]
        rw [ne_eq, beq_iff_eq]
        intro he
        exact hnd.1 (he ▸ List.mem_map_of_mem Prod.fst h)
      rw [List.find?_cons, hne]
      exact ih hnd.2 h

theorem groupByCid_find (records : List SQSRecord) (c : String)
    (recs : List SQSRecord) (hgr : (c, recs) ∈ groupByCid records) :
    (groupByCid records).find? (fun gr => gr.1 == c) = some (c, recs) :=
  find?_of_mem_nodup (groupByCid_keys_nodup records) hgr

/-! ## Per-collection effect of the two algorithms -/

theorem collGaps_append (t₁ t₂ : List GapRow) (c : String) :
    collGaps (t₁ ++ t₂) c = collGaps t₁ c ++ collGaps t₂ c := by
  unfold collGaps
  rw [List.filter_append, List.map_append]

theorem flatMap_filter {α β : Type} (l : List α) (p : α → Bool)
    (f : α → List β) :
    (l.filter p).flatMap f = l.flatMap fun x => if p x then f x else [] := by
  induction l with
  | nil => rfl
  | cons x l ih =>
    rw [List.filter_cons]
    by_cases h : p x
    · rw [if_pos h, List.flatMap_cons, List.flatMap_cons, if_pos h, ih]
    · rw [if_neg h, List.flatMap_cons, if_neg h, ih]
      rfl

theorem filter_flatMap {α β : Type} (l : List α) (f : α → List β)
    (p : β → Bool) :
    (l.flatMap f).filter p = l.flatMap fun x => (f x).filter p := by
  induction l with
  | nil => rfl
  | cons x l ih => rw [List.flatMap_cons, List.flatMap_cons, List.filter_append, ih]

theorem collGaps_update_gaps (tbl : List GapRow) (rs : List GranuleRecord)
    (c : String) :
    collGaps (update_gaps tbl rs) c =
      updateGapsRanges (collGaps tbl c) (grRangesFor rs c) := by
  unfold collGaps updateGapsRanges
  rw [update_gaps_eq_flatMap, filter_flatMap, List.map_flatMap,
    List.flatMap_map, flatMap_filter]
  refine List.flatMap_congr fun g _ => ?_
  by_cases h : g.collection_id = c
  · have hb : (g.collection_id == c) = true := by rw [beq_iff_eq]; exact h
    rw [if_pos hb]
    rw [List.filter_map]
    have hconst : ∀ q ∈ pieces g.range (grRangesFor rs g.collection_id),
        ((fun row : GapRow => row.collection_id == c) ∘
          fun q => (⟨g.collection_id, q.lo, q.hi⟩ : GapRow)) q = true := by
      intro q _
      exact hb
    rw [List.filter_congr hconst, List.filter_true, List.map_map]
    rw [h]
    have hid : ∀ q ∈ pieces g.range (grRangesFor rs c),
        (GapRow.range ∘ fun q => (⟨c, q.lo, q.hi⟩ : GapRow)) q = id q := by
      intro q _
      rfl
    rw [List.map_congr_left hid, List.map_id]
  · have hb : (g.collection_id == c) = false := by
      rw [Bool.eq_false_iff, ne_eq, beq_iff_eq]
      exact h
    rw [hb]
    simp only [Bool.false_eq_true, if_false]
    rw [List.filter_map]
    have hconst : ∀ q ∈ pieces g.range (grRangesFor rs g.collection_id),
        ((fun row : GapRow => row.collection_id == c) ∘
          fun q => (⟨g.collection_id, q.lo, q.hi⟩ : GapRow)) q = false := by
      intro q _
      exact hb
    rw [List.filter_congr hconst, List.filter_false]
    rfl

theorem touchedBy_eq_rangeTouched (inputs : List GranuleRecord) (g : GapRow)
    (c : String) (hc : g.collection_id = c) :
    touchedBy inputs g = rangeTouched (inputRangesFor inputs c) g.range := by
  rw [Bool.eq_iff_iff]
  unfold touchedBy rangeTouched inputRangesFor
  rw [List.any_eq_true, List.any_eq_true]
  constructor
  · rintro ⟨ir, hir, hcond⟩
    rw [Bool.and_eq_true, beq_iff_eq] at hcond
    refine ⟨inputRange ir, List.mem_filterMap.mpr ⟨ir, hir, ?_⟩, hcond.2⟩
    rw [if_pos (by rw [beq_iff_eq]; rw [← hc]; exact hcond.1)]
  · rintro ⟨x, hx, hcond⟩
    rw [List.mem_filterMap] at hx
    obtain ⟨ir, hir, hx⟩ := hx
    by_cases hcid : (ir.collection_id == c) = true
    · rw [if_pos hcid] at hx
      cases hx
      refine ⟨ir, hir, ?_⟩
      rw [Bool.and_eq_true, beq_iff_eq]
      rw [beq_iff_eq] at hcid
      exact ⟨hcid.trans hc.symm, hcond⟩
    · rw [if_neg hcid] at hx
      cases hx

theorem collGaps_merged_flatMap (cs : List String) (G : String → List Tsrange)
    (c : String) (hnd : cs.Nodup) :
    collGaps (cs.flatMap fun c' =>
      (G c').map fun r => (⟨c', r.lo, r.hi⟩ : GapRow)) c =
      if c ∈ cs then G c else [] := by
  induction cs with
  | nil => simp [collGaps]
  | cons c₀ cs ih =>
    rw [List.nodup_cons] at hnd
    rw [List.flatMap_cons, collGaps_append, ih hnd.2]
    unfold collGaps
    rw [List.filter_map]
    by_cases h : c₀ = c
    · subst h
      have hmem : ¬ c₀ ∈ cs := hnd.1
      rw [if_neg hmem]
      have hT : ∀ q ∈ G c₀,
          ((fun row : GapRow => row.collection_id == c₀) ∘
            fun r => (⟨c₀, r.lo, r.hi⟩ : GapRow)) q = true := by
        intro q _
        exact beq_self_eq_true c₀
      rw [List.filter_congr hT, List.filter_true, List.map_map, if_pos (List.mem_cons_self c₀ cs)]
      have hid : ∀ q ∈ G c₀,
          (GapRow.range ∘ fun r => (⟨c₀, r.lo, r.hi⟩ : GapRow)) q = id q := by
        intro q _
        rfl
      rw [List.map_congr_left hid, List.map_id, List.append_nil]
    · have hF : ∀ q ∈ G c₀,
          ((fun row : GapRow => row.collection_id == c) ∘
            fun r => (⟨c₀, r.lo, r.hi⟩ : GapRow)) q = false := by
        intro q _
        rw [Function.comp_apply, Bool.eq_false_iff, ne_eq, beq_iff_eq]
        exact h
      rw [List.filter_congr hF, List.filter_false]
      simp only [List.map_nil, List.nil_append]
      have hiff : (c ∈ c₀ :: cs) ↔ (c ∈ cs) := by
        rw [List.mem_cons]
        constructor
        · rintro (rfl | hm)
          · exact absurd rfl h
          · exact hm
        · exact Or.inr
      rw [if_congr hiff rfl rfl]

theorem collGaps_add_gaps (tbl : List GapRow) (inputs : List GranuleRecord)
    (c : String) :
    collGaps (add_gaps tbl inputs) c =
      (collGaps tbl c).filter
        (fun q => ! rangeTouched (inputRangesFor inputs c) q) ++
      (if c ∈ inputCids inputs then
        rangeAgg (inputRangesFor inputs c ++
          (collGaps tbl c).filter (rangeTouched (inputRangesFor inputs c)))
      else []) := by
  unfold add_gaps
  rw [collGaps_append]
  have hrem : collGaps (tbl.filter fun g => ! touchedBy inputs g) c =
      (collGaps tbl c).filter
        fun q => ! rangeTouched (inputRangesFor inputs c) q := by
    unfold collGaps
    rw [List.filter_comm, List.filter_map]
    refine congrArg _ ?_
    refine List.filter_congr fun g hg => ?_
    rw [List.mem_filter, beq_iff_eq] at hg
    rw [Function.comp_apply, touchedBy_eq_rangeTouched inputs g c hg.2]
  have hmerged := collGaps_merged_flatMap (inputCids inputs)
    (fun c' => rangeAgg (inputRangesFor inputs c' ++
      removedRangesFor tbl inputs c')) c (List.nodup_dedup _)
  rw [hrem, hmerged]
  refine congrArg _ ?_
  by_cases hm : c ∈ inputCids inputs
  · rw [if_pos hm, if_pos hm]
    refine congrArg _ (congrArg _ ?_)
    rw [removedRangesFor_eq_collGaps]
    unfold collGaps
    rw [List.filter_comm, List.filter_map]
    refine congrArg _ ?_
    refine List.filter_congr fun g hg => ?_
    rw [List.mem_filter, beq_iff_eq] at hg
    rw [Function.comp_apply, touchedBy_eq_rangeTouched inputs g c hg.2]
  · rw [if_neg hm, if_neg hm]

theorem inputRangesFor_other (c c' : String) (recs : List SQSRecord)
    (h : c' ≠ c) : inputRangesFor (toGranules c recs) c' = [] := by
  unfold inputRangesFor toGranules
  rw [List.filterMap_map, List.filterMap_eq_nil_iff]
  intro r _
  have hb : ¬ ((⟨c, r.beginningDateTime, r.endingDateTime⟩ :
      GranuleRecord).collection_id == c') = true := by
    rw [beq_iff_eq]
    exact fun he => h he.symm
  exact if_neg hb

theorem grRangesFor_other (c c' : String) (recs : List SQSRecord)
    (h : c' ≠ c) : grRangesFor (toGranules c recs) c' = [] := by
  unfold grRangesFor toGranules
  rw [List.filterMap_map, List.filterMap_eq_nil_iff]
  intro r _
  have hb : ¬ ((⟨c, r.beginningDateTime, r.endingDateTime⟩ :
      GranuleRecord).collection_id == c') = true := by
    rw [beq_iff_eq]
    exact fun he => h he.symm
  exact if_neg hb

theorem inputCids_toGranules (c : String) (recs : List SQSRecord)
    (h : recs ≠ []) : inputCids (toGranules c recs) = [c] := by
  induction recs with
  | nil => exact absurd rfl h
  | cons r rest ih =>
    cases rest with
    | nil => rfl
    | cons r' rest' =>
      have hr : inputCids (toGranules c (r' :: rest')) = [c] := ih (by simp)
      unfold inputCids toGranules at *
      simp only [List.map_cons, List.map_map] at *
      rw [List.dedup_cons_of_mem]
      · exact hr
      · exact List.mem_cons_self _ _

theorem collGaps_add_gaps_other (tbl : List GapRow) (c c' : String)
    (recs : List SQSRecord) (h : c' ≠ c) :
    collGaps (add_gaps tbl (toGranules c recs)) c' = collGaps tbl c' := by
  rw [collGaps_add_gaps, inputRangesFor_other c c' recs h]
  have h1 : ∀ q ∈ collGaps tbl c', (! rangeTouched [] q) = true := by
    intro q _
    rfl
  rw [List.filter_congr h1, List.filter_true]
  have h2 : c' ∉ inputCids (toGranules c recs) := by
    intro hm
    unfold inputCids toGranules at hm
    rw [List.map_map, List.mem_dedup, List.mem_map] at hm
    obtain ⟨r, _, he⟩ := hm
    exact h he.symm
  rw [if_neg h2, List.append_nil]

theorem collGaps_add_gaps_self (tbl : List GapRow) (c : String)
    (recs : List SQSRecord) (h : recs ≠ []) :
    collGaps (add_gaps tbl (toGranules c recs)) c =
      addGapsRanges (collGaps tbl c)
        (inputRangesFor (toGranules c recs) c) := by
  rw [collGaps_add_gaps, if_pos]
  · rfl
  · rw [inputCids_toGranules c recs h]
    exact List.mem_singleton.mpr rfl

theorem collGaps_update_gaps_other (tbl : List GapRow) (c c' : String)
    (recs : List SQSRecord) (h : c' ≠ c) :
    collGaps (update_gaps tbl (toGranules c recs)) c' = collGaps tbl c' := by
  rw [collGaps_update_gaps, grRangesFor_other c c' recs h]
  unfold updateGapsRanges
  have hp : ∀ q ∈ collGaps tbl c', pieces q [] = [q] := fun q _ => rfl
  rw [List.flatMap_congr hp]
  simp

/-! ## Master characterization of the gapUpdate handler loop -/

theorem handler_foldl (del : Bool) (regs : List String)
    (txnFails : String → Bool) :
    ∀ (gs : List (String × List SQSRecord)) (fs : List String)
      (tb : List GapRow),
      (gs.map Prod.fst).Nodup →
      (∀ gr ∈ gs, gr.2 ≠ []) →
      (gs.foldl (processGroup del regs txnFails) (fs, tb)).1 =
        fs ++ gs.flatMap (fun gr =>
          if ¬ regs.contains gr.1 then
            gr.2.map (·.messageId) ++ gr.2.map (·.messageId)
          else if txnFails gr.1 then gr.2.map (·.messageId) else []) ∧
      (∀ c,
        collGaps (gs.foldl (processGroup del regs txnFails) (fs, tb)).2 c =
          match gs.find? (fun gr => gr.1 == c) with
          | some gr =>
            if ¬ regs.contains c ∨ txnFails c = true then collGaps tb c
            else if del then
              addGapsRanges (collGaps tb c)
                (inputRangesFor (toGranules gr.1 gr.2) c)
            else
              updateGapsRanges (collGaps tb c)
                (grRangesFor (toGranules gr.1 gr.2) c)
          | none => collGaps tb c) := by
  intro gs
  induction gs with
  | nil =>
    intro fs tb _ _
    exact ⟨by simp, fun c => by simp⟩
  | cons gr gs ih =>
    intro fs tb hnd hne
    rw [List.map_cons, List.nodup_cons] at hnd
    have hne' : ∀ g' ∈ gs, g'.2 ≠ [] := fun g' hg' => hne g' (List.mem_cons_of_mem _ hg')
    simp only [List.foldl_cons]
    by_cases hreg : regs.contains gr.1 = true
    · by_cases hfail : txnFails gr.1 = true
      · -- transaction failure: ids appended once, table unchanged
        have hstep : processGroup del regs txnFails (fs, tb) gr =
            (fs ++ gr.2.map (·.messageId), tb) := by
          unfold processGroup
          rw [if_neg (not_not_intro hreg), if_pos hfail]
        rw [hstep]
        obtain ⟨ihf, ihs⟩ := ih (fs ++ gr.2.map (·.messageId)) tb hnd.2 hne'
        refine ⟨?_, ?_⟩
        · rw [ihf, List.flatMap_cons, if_neg (not_not_intro hreg), if_pos hfail,
            List.append_assoc]
        · intro c
          rw [ihs c, List.find?_cons]
          by_cases hc : (gr.1 == c) = true
          · have hfnone : gs.find? (fun g' => g'.1 == c) = none := by
              rw [List.find?_eq_none]
              intro g' hg' hbe
              rw [beq_iff_eq] at hbe hc
              exact hnd.1 (by rw [hc, ← hbe]; exact List.mem_map_of_mem Prod.fst hg')
            simp only [hc, hfnone]
            rw [beq_iff_eq] at hc
            subst hc
            rw [if_pos (Or.inr hfail)]
          · rw [Bool.not_eq_true] at hc
            simp only [hc]
      · -- success: the algorithm's result is committed
        have hstep : processGroup del regs txnFails (fs, tb) gr =
            (fs, if del then add_gaps tb (toGranules gr.1 gr.2)
              else update_gaps tb (toGranules gr.1 gr.2)) := by
          unfold processGroup
          rw [if_neg (not_not_intro hreg), if_neg hfail]
        rw [hstep]
        set tb' := if del then add_gaps tb (toGranules gr.1 gr.2)
          else update_gaps tb (toGranules gr.1 gr.2) with htb'
        obtain ⟨ihf, ihs⟩ := ih fs tb' hnd.2 hne'
        refine ⟨?_, ?_⟩
        · rw [ihf, List.flatMap_cons, if_neg (not_not_intro hreg),
            if_neg hfail]
          rfl
        · intro c
          rw [ihs c, List.find?_cons]
          by_cases hc : (gr.1 == c) = true
          · have hfnone : gs.find? (fun g' => g'.1 == c) = none := by
              rw [List.find?_eq_none]
              intro g' hg' hbe
              rw [beq_iff_eq] at hbe hc
              exact hnd.1 (by rw [hc, ← hbe]; exact List.mem_map_of_mem Prod.fst hg')
            simp only [hc, hfnone]
            rw [beq_iff_eq] at hc
            subst hc
            rw [if_neg (by
              rintro (h | h)
              · exact h hreg
              · exact hfail h)]
            rw [htb']
            by_cases hdel : del = true
            · rw [if_pos hdel, if_pos hdel]
              exact collGaps_add_gaps_self tb gr.1 gr.2 (hne gr (List.mem_cons_self gr gs))
            · rw [Bool.not_eq_true] at hdel
              rw [hdel]
              simp only [Bool.false_eq_true, if_false]
              exact collGaps_update_gaps tb (toGranules gr.1 gr.2) gr.1
          · have hcc : gr.1 ≠ c := by
              rw [beq_iff_eq] at hc
              exact hc
            rw [Bool.not_eq_true] at hc
            simp only [hc]
            have htbc : collGaps tb' c = collGaps tb c := by
              rw [htb']
              by_cases hdel : del = true
              · rw [if_pos hdel]
                exact collGaps_add_gaps_other tb gr.1 c gr.2 (fun he => hcc he.symm)
              · rw [Bool.not_eq_true] at hdel
                rw [hdel]
                simp only [Bool.false_eq_true, if_false]
                exact collGaps_update_gaps_other tb gr.1 c gr.2 (fun he => hcc he.symm)
            cases hfind : gs.find? (fun g' => g'.1 == c) with
            | none =>
              simp only [hfind]
              exact htbc
            | some gr' =>
              simp only [hfind]
              rw [htbc]
    · -- validation failure: ids appended twice, table unchanged
      have hstep : processGroup del regs txnFails (fs, tb) gr =
          (fs ++ gr.2.map (·.messageId) ++ gr.2.map (·.messageId), tb) := by
        unfold processGroup
        rw [if_pos hreg]
      rw [hstep]
      obtain ⟨ihf, ihs⟩ := ih
        (fs ++ gr.2.map (·.messageId) ++ gr.2.map (·.messageId)) tb hnd.2 hne'
      refine ⟨?_, ?_⟩
      · rw [ihf, List.flatMap_cons, if_pos hreg, List.append_assoc,
          List.append_assoc, List.append_assoc]
      · intro c
        rw [ihs c, List.find?_cons]
        by_cases hc : (gr.1 == c) = true
        · have hfnone : gs.find? (fun g' => g'.1 == c) = none := by
            rw [List.find?_eq_none]
            intro g' hg' hbe
            rw [beq_iff_eq] at hbe hc
            exact hnd.1 (by rw [hc, ← hbe]; exact List.mem_map_of_mem Prod.fst hg')
          simp only [hc, hfnone]
          rw [beq_iff_eq] at hc
          subst hc
          rw [if_pos (Or.inl hreg)]
        · rw [Bool.not_eq_true] at hc
          simp only [hc]

theorem lambda_handler_failures (arn : String) (regs : List String)
    (txnFails : String → Bool) (gapsTable : List GapRow)
    (records : List SQSRecord) :
    (lambda_handler arn regs txnFails gapsTable records).1 =
      (groupByCid records).flatMap (fun gr =>
        if ¬ regs.contains gr.1 then
          gr.2.map (·.messageId) ++ gr.2.map (·.messageId)
        else if txnFails gr.1 then gr.2.map (·.messageId) else []) := by
  have h := (handler_foldl (records.any fun r => r.eventSourceARN == arn)
    regs txnFails (groupByCid records) [] gapsTable
    (groupByCid_keys_nodup records) (groupByCid_nonempty records)).1
  rw [List.nil_append] at h
  exact h

theorem lambda_handler_state (arn : String) (regs : List String)
    (txnFails : String → Bool) (gapsTable : List GapRow)
    (records : List SQSRecord) (c : String) (recs : List SQSRecord)
    (hgr : (c, recs) ∈ groupByCid records) :
    collGaps (lambda_handler arn regs txnFails gapsTable records).2 c =
      if ¬ regs.contains c ∨ txnFails c = true then collGaps gapsTable c
      else if records.any (fun r => r.eventSourceARN == arn) then
        addGapsRanges (collGaps gapsTable c)
          (inputRangesFor (toGranules c recs) c)
      else
        updateGapsRanges (collGaps gapsTable c)
          (grRangesFor (toGranules c recs) c) := by
  have h := (handler_foldl (records.any fun r => r.eventSourceARN == arn)
    regs txnFails (groupByCid records) [] gapsTable
    (groupByCid_keys_nodup records) (groupByCid_nonempty records)).2 c
  rw [groupByCid_find records c recs hgr] at h
  exact h

theorem lambda_handler_state_nogroup (arn : String) (regs : List String)
    (txnFails : String → Bool) (gapsTable : List GapRow)
    (records : List SQSRecord) (c : String)
    (h : c ∉ (groupByCid records).map Prod.fst) :
    collGaps (lambda_handler arn regs txnFails gapsTable records).2 c =
      collGaps gapsTable c := by
  have h2 := (handler_foldl (records.any fun r => r.eventSourceARN == arn)
    regs txnFails (groupByCid records) [] gapsTable
    (groupByCid_keys_nodup records) (groupByCid_nonempty records)).2 c
  have hfnone : (groupByCid records).find? (fun gr => gr.1 == c) = none := by
    rw [List.find?_eq_none]
    intro gr hgr hbe
    rw [beq_iff_eq] at hbe
    exact h (hbe ▸ List.mem_map_of_mem Prod.fst hgr)
  rw [hfnone] at h2
  exact h2

/-- C1 (counterexample): a batch mixing one deletion-queue record for
collection A with one ingest record for collection B.  The claim requires
B's message to be processed by the split-on-add ingest algorithm, which on
B's empty gap set yields no gaps; the handler instead applies the
merge-on-delete algorithm to both groups (the batch-level `delete` flag was
set by A's record), leaving B with the gap `[0, 1s)`. -/
theorem lambda_handler_mixed_batch_cex :
    (lambda_handler "del-arn" ["A", "B"] (fun _ => false) []
        [⟨"del-arn", "m1", "A", 0, 0⟩, ⟨"other-arn", "m2", "B", 0, 0⟩]).2
      = [⟨"A", 0, 1000000⟩, ⟨"B", 0, 1000000⟩] ∧
    ("other-arn" : String) ≠ "del-arn" ∧
    update_gaps [] (toGranules "B" [⟨"other-arn", "m2", "B", 0, 0⟩]) = [] ∧
    collGaps [(⟨"A", 0, 1000000⟩ : GapRow), ⟨"B", 0, 1000000⟩] "B"
      = [⟨0, 1000000⟩] := by
  refine ⟨by decide, by decide, by decide, by decide⟩

/-- C1 (amended): the algorithm is selected once per invocation — delete if
any record of the batch has the deletion queue's `eventSourceARN`, ingest
otherwise — and the selected algorithm is applied to every successfully
processed group. -/
theorem lambda_handler_batch_algorithm (arn : String) (regs : List String)
    (txnFails : String → Bool) (gapsTable : List GapRow)
    (records : List SQSRecord) (c : String) (recs : List SQSRecord)
    (hgr : (c, recs) ∈ groupByCid records) (hreg : regs.contains c = true)
    (hok : txnFails c = false) :
    collGaps (lambda_handler arn regs txnFails gapsTable records).2 c =
      if records.any (fun r => r.eventSourceARN == arn) then
        addGapsRanges (collGaps gapsTable c)
          (inputRangesFor (toGranules c recs) c)
      else
        updateGapsRanges (collGaps gapsTable c)
          (grRangesFor (toGranules c recs) c) := by
  rw [lambda_handler_state arn regs txnFails gapsTable records c recs hgr]
  rw [if_neg]
  rintro (h | h)
  · exact h hreg
  · rw [hok] at h
    exact Bool.false_ne_true h

/-- Witness for the amended C1 at the concrete mixed batch: collection B's
group is processed with the batch-level algorithm. -/
theorem lambda_handler_batch_algorithm_witness :
    (("B", [(⟨"other-arn", "m2", "B", 0, 0⟩ : SQSRecord)]) ∈
        groupByCid [⟨"del-arn", "m1", "A", 0, 0⟩, ⟨"other-arn", "m2", "B", 0, 0⟩] ∧
      (["A", "B"].contains "B") = true ∧ (fun (_ : String) => false) "B" = false) ∧
    collGaps (lambda_handler "del-arn" ["A", "B"] (fun _ => false) []
        [⟨"del-arn", "m1", "A", 0, 0⟩, ⟨"other-arn", "m2", "B", 0, 0⟩]).2 "B" =
      if ([(⟨"del-arn", "m1", "A", 0, 0⟩ : SQSRecord), ⟨"other-arn", "m2", "B", 0, 0⟩].any
          (fun r => r.eventSourceARN == "del-arn")) then
        addGapsRanges (collGaps [] "B")
          (inputRangesFor (toGranules "B" [⟨"other-arn", "m2", "B", 0, 0⟩]) "B")
      else
        updateGapsRanges (collGaps [] "B")
          (grRangesFor (toGranules "B" [⟨"other-arn", "m2", "B", 0, 0⟩]) "B") :=
  ⟨⟨by decide, by decide, rfl⟩,
    lambda_handler_batch_algorithm "del-arn" ["A", "B"] (fun _ => false) []
      [⟨"del-arn", "m1", "A", 0, 0⟩, ⟨"other-arn", "m2", "B", 0, 0⟩] "B"
      [⟨"other-arn", "m2", "B", 0, 0⟩] (by decide) (by decide) rfl⟩

/-- C6: a failing group affects neither the processing nor the outcome of
any other group — every collection's final gap rows are determined by its
own group, its own registration status and its own transaction oracle over
the original table — and the returned `batchItemFailures` ids are exactly
the message ids of the failing groups (unregistered collection or failed
transaction). -/
theorem lambda_handler_failure_isolation (arn : String) (regs : List String)
    (txnFails : String → Bool) (gapsTable : List GapRow)
    (records : List SQSRecord) :
    (∀ mid, mid ∈ (lambda_handler arn regs txnFails gapsTable records).1 ↔
      ∃ gr ∈ groupByCid records,
        (¬ regs.contains gr.1 ∨ txnFails gr.1 = true) ∧
          mid ∈ gr.2.map (·.messageId)) ∧
    (∀ c recs, (c, recs) ∈ groupByCid records →
      collGaps (lambda_handler arn regs txnFails gapsTable records).2 c =
        if ¬ regs.contains c ∨ txnFails c = true then collGaps gapsTable c
        else if records.any (fun r => r.eventSourceARN == arn) then
          addGapsRanges (collGaps gapsTable c)
            (inputRangesFor (toGranules c recs) c)
        else
          updateGapsRanges (collGaps gapsTable c)
            (grRangesFor (toGranules c recs) c)) ∧
    (∀ c, c ∉ (groupByCid records).map Prod.fst →
      collGaps (lambda_handler arn regs txnFails gapsTable records).2 c =
        collGaps gapsTable c) := by
  refine ⟨?_, fun c recs hgr =>
      lambda_handler_state arn regs txnFails gapsTable records c recs hgr,
    fun c hc =>
      lambda_handler_state_nogroup arn regs txnFails gapsTable records c hc⟩
  intro mid
  rw [lambda_handler_failures, List.mem_flatMap]
  constructor
  · rintro ⟨gr, hgr, hmem⟩
    by_cases h1 : regs.contains gr.1 = true
    · by_cases h2 : txnFails gr.1 = true
      · rw [if_neg (not_not_intro h1), if_pos h2] at hmem
        exact ⟨gr, hgr, Or.inr h2, hmem⟩
      · rw [if_neg (not_not_intro h1), if_neg h2] at hmem
        exact absurd hmem (List.not_mem_nil _)
    · rw [if_pos h1] at hmem
      rcases List.mem_append.mp hmem with h | h <;> exact ⟨gr, hgr, Or.inl h1, h⟩
  · rintro ⟨gr, hgr, hfail, hmem⟩
    refine ⟨gr, hgr, ?_⟩
    by_cases h1 : regs.contains gr.1 = true
    · rcases hfail with h | h
      · exact absurd h1 h
      · rw [if_neg (not_not_intro h1), if_pos h]
        exact hmem
    · rw [if_pos h1]
      exact List.mem_append_left _ hmem

/-- C10: in a batch whose message ids are distinct, each message id of a
group whose collection is not in the collections table appears exactly
twice in the returned failures — once from the validation branch, once from
the surrounding per-collection exception handler. -/
theorem lambda_handler_unregistered_twice (arn : String) (regs : List String)
    (txnFails : String → Bool) (gapsTable : List GapRow)
    (records : List SQSRecord) (c : String) (recs : List SQSRecord)
    (mid : String) (hnd : (records.map (·.messageId)).Nodup)
    (hgr : (c, recs) ∈ groupByCid records)
    (hunreg : regs.contains c = false)
    (hmid : mid ∈ recs.map (·.messageId)) :
    ((lambda_handler arn regs txnFails gapsTable records).1).count mid = 2 := by
  rw [lambda_handler_failures]
  have hknd := groupByCid_keys_nodup records
  obtain ⟨l₁, l₂, hsplit⟩ := List.append_of_mem hgr
  have hrecs : recs = records.filter (fun r' => recCid r' == c) :=
    groupByCid_groups records (c, recs) hgr
  obtain ⟨mid', hmidrec⟩ : ∃ r₀, r₀ ∈ records ∧ recCid r₀ = c ∧
      r₀.messageId = mid := by
    rw [hrecs] at hmid
    rw [List.mem_map] at hmid
    obtain ⟨r₀, hr₀, he⟩ := hmid
    rw [List.mem_filter, beq_iff_eq] at hr₀
    exact ⟨r₀, hr₀.1, hr₀.2, he⟩
  have hother : ∀ gr', gr' ∈ groupByCid records → gr'.1 ≠ c →
      mid ∉ gr'.2.map (·.messageId) := by
    intro gr' hgr' hne hmem
    rw [groupByCid_groups records gr' hgr', List.mem_map] at hmem
    obtain ⟨r', hr', he'⟩ := hmem
    rw [List.mem_filter, beq_iff_eq] at hr'
    have : r' = mid' :=
      List.inj_on_of_nodup_map hnd hr'.1 hmidrec.1 (he'.trans hmidrec.2.2.symm)
    exact hne (by rw [← hr'.2, this, hmidrec.2.1])
  have hcontsub : ∀ gr' : String × List SQSRecord, ∀ x,
      x ∈ (if ¬ regs.contains gr'.1 then
          gr'.2.map (·.messageId) ++ gr'.2.map (·.messageId)
        else if txnFails gr'.1 then gr'.2.map (·.messageId) else []) →
      x ∈ gr'.2.map (·.messageId) := by
    intro gr' x hx
    split_ifs at hx with h1 h2
    all_goals
      first
        | exact hx
        | exact (List.mem_append.mp hx).elim id id
        | exact absurd hx (List.not_mem_nil _)
  have hzero : ∀ gs' : List (String × List SQSRecord),
      (∀ gr' ∈ gs', gr' ∈ groupByCid records ∧ gr'.1 ≠ c) →
      (gs'.flatMap (fun gr =>
        if ¬ regs.contains gr.1 then
          gr.2.map (·.messageId) ++ gr.2.map (·.messageId)
        else if txnFails gr.1 then gr.2.map (·.messageId) else [])).count mid
        = 0 := by
    intro gs' hgs'
    rw [List.count_eq_zero]
    intro hmem
    rw [List.mem_flatMap] at hmem
    obtain ⟨gr', hgr', hmem⟩ := hmem
    obtain ⟨hg, hne⟩ := hgs' gr' hgr'
    exact hother gr' hg hne (hcontsub gr' mid hmem)
  have hsides : (∀ gr' ∈ l₁, gr' ∈ groupByCid records ∧ gr'.1 ≠ c) ∧
      (∀ gr' ∈ l₂, gr' ∈ groupByCid records ∧ gr'.1 ≠ c) := by
    rw [hsplit] at hknd
    rw [List.map_append, List.map_cons] at hknd
    rw [List.nodup_append] at hknd
    constructor
    · intro gr' hgr'
      refine ⟨hsplit ▸ List.mem_append_left _ hgr', ?_⟩
      intro he
      exact hknd.2.2 (List.mem_map_of_mem Prod.fst hgr')
        (by rw [he]; exact List.mem_cons_self _ _)
    · intro gr' hgr'
      refine ⟨hsplit ▸ List.mem_append_right _ (List.mem_cons_of_mem _ hgr'), ?_⟩
      intro he
      have := hknd.2.1
      rw [List.nodup_cons] at this
      refine this.1 ?_
      have hm := List.mem_map_of_mem Prod.fst hgr'
      rw [he] at hm
      exact hm
  rw [hsplit, List.flatMap_append, List.flatMap_cons, List.count_append,
    List.count_append]
  rw [hzero l₁ hsides.1, hzero l₂ hsides.2]
  have hids : (recs.map (·.messageId)).count mid = 1 := by
    refine List.count_eq_one_of_mem ?_ hmid
    rw [hrecs]
    exact ((List.filter_sublist records).map (·.messageId)).nodup hnd
  have hcontrib : ((c, recs).2.map (·.messageId) ++
      (c, recs).2.map (·.messageId)).count mid = 2 := by
    rw [List.count_append]
    simp only
    rw [hids]
  rw [if_pos (by rw [hunreg]; exact Bool.false_ne_true)]
  rw [hcontrib]

/-- Witness for C10 at a concrete batch: collection B is not registered;
its message id `m2` is reported twice. -/
theorem lambda_handler_unregistered_twice_witness :
    (((([⟨"del-arn", "m1", "A", 0, 0⟩, ⟨"other-arn", "m2", "B", 0, 0⟩] :
          List SQSRecord).map (·.messageId)).Nodup) ∧
      ("B", [(⟨"other-arn", "m2", "B", 0, 0⟩ : SQSRecord)]) ∈
        groupByCid [⟨"del-arn", "m1", "A", 0, 0⟩, ⟨"other-arn", "m2", "B", 0, 0⟩] ∧
      (["A"].contains "B") = false ∧
      "m2" ∈ ([(⟨"other-arn", "m2", "B", 0, 0⟩ : SQSRecord)]).map (·.messageId)) ∧
    ((lambda_handler "del-arn" ["A"] (fun _ => false) []
        [⟨"del-arn", "m1", "A", 0, 0⟩, ⟨"other-arn", "m2", "B", 0, 0⟩]).1).count "m2"
      = 2 :=
  ⟨⟨by decide, by decide, by decide, by decide⟩,
    lambda_handler_unregistered_twice "del-arn" ["A"] (fun _ => false) []
      [⟨"del-arn", "m1", "A", 0, 0⟩, ⟨"other-arn", "m2", "B", 0, 0⟩] "B"
      [⟨"other-arn", "m2", "B", 0, 0⟩] "m2" (by decide) (by decide) (by decide)
      (by decide)⟩

end GapUpdate

/-! ## C2: reason annotation (knownGap.py) -/

namespace KnownGap

/-- C2: the reason-annotation lambda in `knownGap.py` contradicts the claim
(and the repository's own test suite, which POSTs into a separate `reasons`
table and expects creation to succeed with no gaps present): creating a
reason for a time range containing no gap fails with a validation error, and
a successful create rewrites the `reason` column of the matching rows of the
`gaps` relation itself. -/
theorem update_reason_writes_gaps :
    update_reason "C___1_0" 0 100 (some "r") "create" []
      = .error "Invalid request: No gaps found in range" ∧
    update_reason "C___1_0" 0 100 (some "r") "create"
        [⟨1, "C___1_0", 10, 20, none⟩]
      = .ok ([⟨1, "C___1_0", 10, 20, some "r"⟩],
          "Added reason to 'r' for 1 gaps in range") ∧
    (⟨1, "C___1_0", 10, 20, some "r"⟩ : Row) ≠ ⟨1, "C___1_0", 10, 20, none⟩ :=
  ⟨rfl, rfl, by decide⟩

end KnownGap

/-! ## C7: catalog base URL selection -/

namespace GapConfig

/-- C7 (counterexample): with `CMR_ENV = UAT` the claim requires the
backfill producer's granule pagination to use the UAT base URL; the
producer's URL is a constant pointing at the production catalog. -/
theorem process_collection_url_cex :
    process_collection_cmr_url
      = "https://cmr.earthdata.nasa.gov/search/granules.json" ∧
    specCmrBase "UAT" ++ "granules.json"
      = "https://cmr.uat.earthdata.nasa.gov/search/granules.json" ∧
    process_collection_cmr_url ≠ specCmrBase "UAT" ++ "granules.json" :=
  ⟨rfl, by decide, by decide⟩

/-- C7 (amended): the registration-time extent lookup of `get_cmr_time`
uses the base URL selected by `CMR_ENV` (`https://cmr.{env}.earthdata...`
for SIT and UAT, `https://cmr.earthdata...` for PROD), while the backfill
producer's granule pagination always uses the production base URL,
regardless of `CMR_ENV`. -/
theorem cmr_env_url_selection (sn v env : String)
    (henv : env = "SIT" ∨ env = "UAT" ∨ env = "PROD") :
    get_cmr_time_url sn v env =
      specCmrBase env ++ "collections.umm_json_v1_4?short_name=" ++ sn ++
        "&version=" ++ (⟨v.data.map fun c => if c == '_' then '.' else c⟩ : String) ∧
    process_collection_cmr_url = specCmrBase "PROD" ++ "granules.json" := by
  constructor
  · rcases henv with rfl | rfl | rfl <;>
      · apply String.ext
        simp [get_cmr_time_url, specCmrBase, toLowerAscii, String.data_append]
  · decide

/-- Witness for the amended C7 at `CMR_ENV = UAT`. -/
theorem cmr_env_url_selection_witness :
    (("UAT" : String) = "SIT" ∨ ("UAT" : String) = "UAT" ∨
      ("UAT" : String) = "PROD") ∧
    (get_cmr_time_url "SN" "1_0" "UAT" =
      specCmrBase "UAT" ++ "collections.umm_json_v1_4?short_name=" ++ "SN" ++
        "&version=" ++
        (⟨("1_0" : String).data.map fun c => if c == '_' then '.' else c⟩ : String) ∧
      process_collection_cmr_url = specCmrBase "PROD" ++ "granules.json") :=
  ⟨Or.inr (Or.inl rfl),
    cmr_env_url_selection "SN" "1_0" "UAT" (Or.inr (Or.inl rfl))⟩

end GapConfig

/-! ## C8: backfill resource parameters and range splitting -/

namespace Compiler

/-- C8 (counterexample): a collection with 100000 granules gets P = 5
producers; splitting the 7-microsecond range `[0, 7]` into 5 sub-ranges
uses `delta = round(7/5) = 1`, so the concatenation of the sub-ranges ends
at 5, not at 7 — it is not the whole range. -/
theorem split_date_ranges_cex :
    get_params_counts 100000 = (5, 8, 20000) ∧
    split_date_ranges 0 7 5 = [(0, 1), (1, 2), (2, 3), (3, 4), (4, 5)] ∧
    (split_date_ranges 0 7 5).getLast?.map Prod.snd = some 5 ∧
    (5 : Int) ≠ 7 := by
  refine ⟨by decide, by decide, by decide, by decide⟩

/-- C8 (amended): the producer count is the claimed rounded clamp (bounded
between 1 and 8), the consumer count C satisfies `|2C − 3P| ≤ 1`
(`C = round(1.5·P)` with ties to even), the queue size is `P·2·2000`, and
the range is split into exactly P contiguous equal-length sub-ranges of
length `delta = round((end−start)/P)` microseconds starting at `start`;
their concatenation is the whole range exactly when P divides the duration
in microseconds. -/
theorem get_params_split_spec (num_granules : ℕ) (start finish : Int)
    (n : ℕ) (hn : 0 < n) :
    (∃ P C : ℤ, get_params_counts num_granules = (P, C, P * 2 * 2000) ∧
      1 ≤ P ∧ P ≤ 8 ∧ (2 * C - 3 * P = 0 ∨ 2 * C - 3 * P = 1 ∨
        2 * C - 3 * P = -1)) ∧
    (split_date_ranges start finish n).length = n ∧
    (∀ i, i < n → (split_date_ranges start finish n)[i]? =
      some (start + pyRoundDiv (finish - start) n * i,
        start + pyRoundDiv (finish - start) n * (i + 1))) ∧
    (start + pyRoundDiv (finish - start) n * n = finish ↔
      (n : Int) ∣ (finish - start)) := by
  have hP : (get_params_counts num_granules).1 =
      pyRoundDiv (clampedProducerFrac num_granules).1
        (clampedProducerFrac num_granules).2 := rfl
  have hC : (get_params_counts num_granules).2.1 =
      pyRoundDiv (3 * (get_params_counts num_granules).1) 2 := rfl
  have hQ : (get_params_counts num_granules).2.2 =
      (get_params_counts num_granules).1 * 2 * 2000 := rfl
  have hbounds : 1 ≤ (get_params_counts num_granules).1 ∧
      (get_params_counts num_granules).1 ≤ 8 := by
    rw [hP]
    unfold clampedProducerFrac
    split_ifs with h1 h2 <;> simp only [pyRoundDiv] <;> omega
  refine ⟨?_, ?_, ?_, ?_⟩
  · refine ⟨(get_params_counts num_granules).1,
      (get_params_counts num_granules).2.1, ?_, hbounds.1, hbounds.2, ?_⟩
    · rw [← hQ]
    · rw [hC]
      simp only [pyRoundDiv]
      omega
  · unfold split_date_ranges
    rw [List.length_map, List.length_range]
  · intro i hi
    unfold split_date_ranges
    rw [List.getElem?_map, List.getElem?_range hi]
    rfl
  · constructor
    · intro h
      refine ⟨pyRoundDiv (finish - start) (n : Int), ?_⟩
      rw [Int.mul_comm]
      omega
    · rintro ⟨k, hk⟩
      have hn' : (n : Int) ≠ 0 := by
        simp only [ne_eq, Int.natCast_eq_zero]
        omega
      have hdiv : (finish - start) / (n : Int) = k := by
        rw [hk]
        exact Int.mul_ediv_cancel_left k hn'
      have hmod : (finish - start) % (n : Int) = 0 := by
        rw [hk]
        exact Int.mul_emod_right _ _
      have hk' : finish - start = k * (n : Int) := by
        rw [hk, Int.mul_comm]
      have h0 : 2 * (0 : Int) < (n : Int) := by omega
      simp only [pyRoundDiv]
      rw [hdiv, hmod, if_pos h0]
      omega

/-- Witness for the amended C8: 100000 granules, range `[0, 10]` split in
5. -/
theorem get_params_split_spec_witness :
    0 < 5 ∧
    ((∃ P C : ℤ, get_params_counts 100000 = (P, C, P * 2 * 2000) ∧
      1 ≤ P ∧ P ≤ 8 ∧ (2 * C - 3 * P = 0 ∨ 2 * C - 3 * P = 1 ∨
        2 * C - 3 * P = -1)) ∧
    (split_date_ranges 0 10 5).length = 5 ∧
    (∀ i : ℕ, i < 5 → (split_date_ranges 0 10 5)[i]? =
      some (0 + pyRoundDiv (10 - 0) ((5 : ℕ) : Int) * (i : Int),
        0 + pyRoundDiv (10 - 0) ((5 : ℕ) : Int) * ((i : Int) + 1))) ∧
    (0 + pyRoundDiv (10 - 0) ((5 : ℕ) : Int) * ((5 : ℕ) : Int) = 10 ↔
      ((5 : ℕ) : Int) ∣ (10 - 0))) :=
  ⟨by decide, get_params_split_spec 100000 0 10 5 (by decide)⟩

end Compiler

/-! ## C9: gap-query response shape -/

namespace GetTimeGaps

/-- C9 (counterexample): a successful query (valid parameters, registered
collection) whose fetch returns no rows responds 200 with a message-only
body, not with the claimed `{timeGaps, gapTolerance}` shape, whatever the
serialized size. -/
theorem getTimeGaps_empty_cex :
    lambda_handler true [] 0 10 "c" "t"
      = ⟨200, .message "No qualifying time gaps found."⟩ ∧
    (∀ tgs tol, RespBody.message "No qualifying time gaps found." ≠
      RespBody.gaps tgs tol) :=
  ⟨rfl, fun _ _ h => RespBody.noConfusion h⟩

/-- C9 (amended): for a successful query returning at least one row, the
response is 200 with body `{timeGaps, gapTolerance}` when the serialized
body does not exceed 6 MiB, and 200 with `{message, presigned_url}` (URL
expiry 3600 seconds) when it does; when no row is returned the body is a
message alone. -/
theorem getTimeGaps_response_shape (tgs : List (Int × Int × Option String))
    (tol : Int) (size : ℕ) (cid ts : String) (hne : tgs ≠ []) :
    lambda_handler true tgs tol size cid ts =
      (if size > size_threshold then
        ⟨200, .presigned "Too many results for response, use the presigned URL"
          ⟨"gaps/" ++ cid ++ "/" ++ ts ++ ".json", 3600⟩⟩
      else ⟨200, .gaps tgs tol⟩) := by
  unfold lambda_handler get_presigned_url
  have hempty : tgs.isEmpty = false := by
    rw [List.isEmpty_eq_false]
    exact hne
  rw [hempty]
  simp only [Bool.not_true, Bool.false_eq_true, if_false]

/-- Witness for the amended C9 at one row and a small size. -/
theorem getTimeGaps_response_shape_witness :
    ([((0 : Int), (1 : Int), (none : Option String))] ≠ []) ∧
    lambda_handler true [((0 : Int), (1 : Int), (none : Option String))] 0 10 "c" "t" =
      (if 10 > size_threshold then
        ⟨200, .presigned "Too many results for response, use the presigned URL"
          ⟨"gaps/" ++ "c" ++ "/" ++ "t" ++ ".json", 3600⟩⟩
      else ⟨200, .gaps [((0 : Int), (1 : Int), (none : Option String))] 0⟩) :=
  ⟨by decide, getTimeGaps_response_shape _ 0 10 "c" "t" (by decide)⟩

end GetTimeGaps

/-! ## C5: soundness of the rows returned by the gap query -/

namespace Utils

/-- Every emitted row of the filtered left join is sound: it is the full gap
when no reason matches the join condition, or the clamped intersection with
a matching reason; it meets the tolerance on the emitted interval; and its
reason is NULL whenever `knownCheck` is set. -/
theorem emit_kept_sound (gaps : List GapRow) (reasons : List ReasonRow)
    (cid : String) (tol : Int) (sd ed : Option Int) (knownCheck : Bool)
    (x : Int × Int × Option String)
    (hx : x ∈ ((leftJoin gaps reasons cid sd ed).filter fun p =>
      whereCond cid sd ed tol p && (!knownCheck || p.2.isNone)).map emit) :
    (knownCheck = true → x.2.2 = none) ∧
      rowSound gaps reasons cid tol sd ed x := by
  rcases List.mem_map.mp hx with ⟨p, hp, hemit⟩
  rcases List.mem_filter.mp hp with ⟨hpj, hcond⟩
  simp only [Bool.and_eq_true] at hcond
  obtain ⟨hwhere, hknown⟩ := hcond
  simp only [leftJoin] at hpj
  rcases List.mem_flatMap.mp hpj with ⟨g, hg, hpg⟩
  have hpg' : p ∈ if (reasons.filter (joinCond cid sd ed g)).isEmpty = true
      then [((g : GapRow), (none : Option ReasonRow))]
      else (reasons.filter (joinCond cid sd ed g)).map fun r =>
        (g, some r) := hpg
  by_cases hms : (reasons.filter (joinCond cid sd ed g)).isEmpty = true
  · rw [if_pos hms] at hpg'
    have hpeq : p = (g, none) := List.mem_singleton.mp hpg'
    subst hpeq
    subst hemit
    simp only [whereCond, Bool.and_eq_true, decide_eq_true_eq, beq_iff_eq]
      at hwhere
    obtain ⟨⟨⟨⟨hcoll, -⟩, -⟩, -⟩, htol⟩ := hwhere
    have hnil : ∀ r ∈ reasons, ¬ joinCond cid sd ed g r = true := by
      rw [← List.filter_eq_nil_iff]
      exact List.isEmpty_iff.mp hms
    exact ⟨fun _ => rfl, g, hg, hcoll, .inl ⟨rfl, rfl, rfl, hnil⟩, htol⟩
  · rw [if_neg hms] at hpg'
    rcases List.mem_map.mp hpg' with ⟨r, hr, hpr⟩
    rcases List.mem_filter.mp hr with ⟨hrmem, hrjoin⟩
    subst hpr
    subst hemit
    simp only [whereCond, Bool.and_eq_true, decide_eq_true_eq, beq_iff_eq]
      at hwhere
    obtain ⟨⟨⟨⟨hcoll, -⟩, -⟩, -⟩, htol⟩ := hwhere
    refine ⟨fun hk => by simp [hk] at hknown, g, hg, hcoll,
      .inr ⟨r, hrmem, hrjoin, rfl, rfl, rfl⟩, htol⟩

/-- Rows surviving the year-9999 fix-up are three-column rows satisfying
the row property, except for the last returned row, which may be the
reason-less pair `(start_ts, now)` written over a row that satisfied the
property with some year-9999 end timestamp and some reason. -/
theorem postLast_sound (rows : List (Int × Int × Option String)) (now : Int)
    (P : Int × Int × Option String → Prop) (hmem : ∀ x ∈ rows, P x)
    (row : TimeGapRow) (hrow : row ∈ postLast rows now) :
    (∃ s e r, row = TimeGapRow.triple s e r ∧ P (s, e, r)) ∨
    (∃ s, row = TimeGapRow.pair s now ∧
      (postLast rows now).getLast? = some row ∧
      ∃ e r, isYear9999 e = true ∧ P (s, e, r)) := by
  cases hlast : rows.getLast? with
  | none =>
    have hpost : postLast rows now =
        rows.map fun r => TimeGapRow.triple r.1 r.2.1 r.2.2 := by
      unfold postLast
      rw [hlast]
    rw [hpost] at hrow
    rcases List.mem_map.mp hrow with ⟨x, hx, hxe⟩
    exact .inl ⟨x.1, x.2.1, x.2.2, hxe.symm, hmem x hx⟩
  | some last =>
    by_cases hy : isYear9999 last.2.1 = true
    · have hpost : postLast rows now =
          (rows.dropLast.map fun r => TimeGapRow.triple r.1 r.2.1 r.2.2) ++
            [TimeGapRow.pair last.1 now] := by
        unfold postLast
        simp only [hlast]
        rw [if_pos hy]
      rw [hpost] at hrow ⊢
      rcases List.mem_append.mp hrow with h | h
      · rcases List.mem_map.mp h with ⟨x, hx, hxe⟩
        exact .inl ⟨x.1, x.2.1, x.2.2, hxe.symm,
          hmem x (List.Sublist.mem hx (List.dropLast_sublist rows))⟩
      · have hr : row = TimeGapRow.pair last.1 now := List.mem_singleton.mp h
        subst hr
        refine .inr ⟨last.1, rfl, List.getLast?_concat _, last.2.1, last.2.2,
          hy, ?_⟩
        exact hmem last (List.mem_of_getLast?_eq_some hlast)
    · have hpost : postLast rows now =
          rows.map fun r => TimeGapRow.triple r.1 r.2.1 r.2.2 := by
        unfold postLast
        simp only [hlast]
        rw [if_neg hy]
      rw [hpost] at hrow
      rcases List.mem_map.mp hrow with ⟨x, hx, hxe⟩
      exact .inl ⟨x.1, x.2.1, x.2.2, hxe.symm, hmem x hx⟩

/-- C5 (counterexample): two queries violating the claim.  First, a gap
ending in year 9999: the single returned row is the two-component pair
`(0, 42)` — it ends at the current time `42`, which is not the gap's end,
and carries no reason column at all, so it is no three-column row.  Second,
a reason of the same collection overlapping the gap but lying outside the
query window `[0, 10)`: the returned row is the full gap with NULL reason,
although a reason overlaps the gap, because the join condition also scopes
reasons to the query window. -/
theorem fetch_time_gaps_cex :
    fetch_time_gaps "S" "1.0" 0 [⟨"S___1_0", 0, year9999lo + 1⟩] [] false
      none none 42 = [TimeGapRow.pair 0 42] ∧
    (42 : Int) ≠ year9999lo + 1 ∧
    (∀ s e r, TimeGapRow.pair 0 42 ≠ TimeGapRow.triple s e r) ∧
    fetch_time_gaps "S" "1.0" 0 [⟨"S___1_0", 0, 100⟩]
      [⟨"S___1_0", 50, 60, "x"⟩] false (some 0) (some 10) 0
      = [TimeGapRow.triple 0 100 none] ∧
    Tsrange.overlaps ⟨0, 100⟩ ⟨50, 60⟩ = true ∧
    TimeGapRow.triple 0 100 none ≠
      TimeGapRow.triple (max 0 50) (min 100 60) (some "x") := by
  refine ⟨by decide, by decide, fun s e r h => TimeGapRow.noConfusion h,
    by decide, by decide, by decide⟩

/-- C5 (amended): every row returned by `fetch_time_gaps` either is a
three-column row with NULL reason when `knownCheck` is set that is sound —
the intersection of a gap of the collection with a reason matching the join
condition (same collection, overlapping the gap, and within the
query-window bounds), or the full gap when no reason matches it, with the
emitted interval meeting the tolerance — or is the last returned row,
rewritten to the reason-less pair `(start_ts, now)` because a sound row
(with NULL reason when `knownCheck` is set) had an end falling in year
9999. -/
theorem fetch_time_gaps_rows_sound (shortname versionid : String)
    (granulegap : Int) (gaps : List GapRow) (reasons : List ReasonRow)
    (knownCheck : Bool) (startDate endDate : Option Int) (now : Int)
    (row : TimeGapRow)
    (hrow : row ∈ fetch_time_gaps shortname versionid granulegap gaps
      reasons knownCheck startDate endDate now) :
    (∃ s e r, row = TimeGapRow.triple s e r ∧
      (knownCheck = true → r = none) ∧
      rowSound gaps reasons (shortname ++ "___" ++ sanitizeId versionid)
        granulegap startDate endDate (s, e, r)) ∨
    (∃ s, row = TimeGapRow.pair s now ∧
      (fetch_time_gaps shortname versionid granulegap gaps reasons
          knownCheck startDate endDate now).getLast? = some row ∧
      ∃ e r, isYear9999 e = true ∧ (knownCheck = true → r = none) ∧
        rowSound gaps reasons (shortname ++ "___" ++ sanitizeId versionid)
          granulegap startDate endDate (s, e, r)) := by
  have h := postLast_sound
    (List.insertionSort startLE
      (((leftJoin gaps reasons (shortname ++ "___" ++ sanitizeId versionid)
          startDate endDate).filter fun p =>
        whereCond (shortname ++ "___" ++ sanitizeId versionid) startDate
          endDate granulegap p && (!knownCheck || p.2.isNone)).map
            emit).dedup)
    now
    (fun x => (knownCheck = true → x.2.2 = none) ∧
      rowSound gaps reasons (shortname ++ "___" ++ sanitizeId versionid)
        granulegap startDate endDate x)
    (fun x hx => emit_kept_sound gaps reasons
      (shortname ++ "___" ++ sanitizeId versionid) granulegap startDate
      endDate knownCheck x
      (List.mem_dedup.mp ((List.mem_insertionSort startLE).mp hx)))
    row hrow
  rcases h with ⟨s, e, r, heq, hk, hs⟩ | ⟨s, heq, hl, e, r, hy, hk, hs⟩
  · exact .inl ⟨s, e, r, heq, hk, hs⟩
  · exact .inr ⟨s, heq, hl, e, r, hy, hk, hs⟩

/-- Witness for the amended C5 at the window-scoped query of the
counterexample: the returned full-gap row is sound. -/
theorem fetch_time_gaps_rows_sound_witness :
    (TimeGapRow.triple 0 100 none ∈
      fetch_time_gaps "S" "1.0" 0 [⟨"S___1_0", 0, 100⟩]
        [⟨"S___1_0", 50, 60, "x"⟩] false (some 0) (some 10) 0) ∧
    ((∃ s e r, TimeGapRow.triple 0 100 none = TimeGapRow.triple s e r ∧
      (false = true → r = none) ∧
      rowSound [⟨"S___1_0", 0, 100⟩] [⟨"S___1_0", 50, 60, "x"⟩]
        ("S" ++ "___" ++ sanitizeId "1.0") 0 (some 0) (some 10) (s, e, r)) ∨
    (∃ s, TimeGapRow.triple 0 100 none = TimeGapRow.pair s 0 ∧
      (fetch_time_gaps "S" "1.0" 0 [⟨"S___1_0", 0, 100⟩]
          [⟨"S___1_0", 50, 60, "x"⟩] false (some 0) (some 10) 0).getLast?
        = some (TimeGapRow.triple 0 100 none) ∧
      ∃ e r, isYear9999 e = true ∧ (false = true → r = none) ∧
        rowSound [⟨"S___1_0", 0, 100⟩] [⟨"S___1_0", 50, 60, "x"⟩]
          ("S" ++ "___" ++ sanitizeId "1.0") 0 (some 0) (some 10)
          (s, e, r))) :=
  ⟨by decide, fetch_time_gaps_rows_sound "S" "1.0" 0 [⟨"S___1_0", 0, 100⟩]
    [⟨"S___1_0", 50, 60, "x"⟩] false (some 0) (some 10) 0
    (TimeGapRow.triple 0 100 none) (by decide)⟩

end Utils

end GapDetection
